import Mathlib

/-
Verification of the DeepOCT GPT-response normalization pipeline and its
collaborators, as implemented in oct_analysis.py, patient_management.py and
models.py.

Modelling conventions:
- Parsed JSON values are the inductive type `Json`.  Numeric literals keep
  their source lexeme (the normalizer never computes with numbers, it only
  passes them through or fails calling string methods on them), so no
  floating point is needed.
- Python operations that can raise (`d[k]` on a missing key, `x.capitalize()`
  on a non-string, `"k" in 5`, tuple-unpacking a split, ...) are embedded as
  `Option`-valued functions; `none` models a raised exception.
- Python `str` methods (`lower`, `capitalize`, `strip`, `split`, substring
  `in`) are embedded over `List Char`; `lower`/`capitalize`(`upper`) are
  modelled over the ASCII and Latin-1 letter ranges, which covers every
  character the code manipulates ("Présente", "Complètement", ...).
- `json.loads` is embedded as a strict recursive-descent parser with a fuel
  bound; stdlib extensions irrelevant to this code path (NaN/Infinity
  literals, surrogate-pair \u escapes) are omitted.  Failure anywhere gives
  `none`, which the Requestor turns into an `{"error": ...}` object whose
  message text is irrelevant downstream (only the presence of the key
  matters), so it is modelled by a fixed string.
-/

/-! ## Python character and string primitives -/

/-- Python `str.lower` on one character, for the ASCII and Latin-1 ranges
(the multiplication sign U+00D7 is not a letter and is excluded). -/
def pyCharLower (c : Char) : Char :=
  if 'A' ≤ c ∧ c ≤ 'Z' then Char.ofNat (c.toNat + 32)
  else if ('À' ≤ c ∧ c ≤ 'Þ') ∧ c ≠ '×' then Char.ofNat (c.toNat + 32)
  else c

/-- Python `str.upper` on one character, for the ASCII and Latin-1 ranges
(the division sign U+00F7 is excluded; 'ß' and 'ÿ', whose Python uppercase
leaves Latin-1, do not occur in the vocabulary this code manipulates). -/
def pyCharUpper (c : Char) : Char :=
  if 'a' ≤ c ∧ c ≤ 'z' then Char.ofNat (c.toNat - 32)
  else if ('à' ≤ c ∧ c ≤ 'þ') ∧ c ≠ '÷' then Char.ofNat (c.toNat - 32)
  else c

/-- Python `str.lower`. -/
def pyLower (s : String) : String :=
  String.mk (s.toList.map pyCharLower)

/-- Python `str.capitalize`: first character upper-cased, the rest
lower-cased. -/
def pyCapitalize (s : String) : String :=
  match s.toList with
  | [] => ""
  | c :: t => String.mk (pyCharUpper c :: t.map pyCharLower)

/-- The whitespace characters stripped by Python `str.strip()`. -/
def pySpace (c : Char) : Bool :=
  c == ' ' || c == '\t' || c == '\n' || c == '\r' || c == '\x0b' || c == '\x0c'

/-- Python `str.strip()` over a character list. -/
def pyStrip (l : List Char) : List Char :=
  ((l.dropWhile pySpace).reverse.dropWhile pySpace).reverse

/-- If `p` is a prefix of `l`, return the remainder, else `none`. -/
def dropPre : List Char → List Char → Option (List Char)
  | [], l => some l
  | _ :: _, [] => none
  | a :: p, b :: l => if a = b then dropPre p l else none

/-- Everything after the first occurrence of `p` in `l`
(`none` when `p` does not occur). -/
def splitAfter (p : List Char) : List Char → Option (List Char)
  | [] => dropPre p []
  | c :: t =>
    match dropPre p (c :: t) with
    | some r => some r
    | none => splitAfter p t

/-- Everything before the first occurrence of `p` in `l`
(all of `l` when `p` does not occur). -/
def splitBefore (p : List Char) : List Char → List Char
  | [] => []
  | c :: t => if (dropPre p (c :: t)).isSome then [] else c :: splitBefore p t

/-- Python substring membership `needle in hay` over character lists. -/
def pyInL (needle hay : List Char) : Bool :=
  (splitAfter needle hay).isSome

/-- Python substring membership `needle in hay` over strings. -/
def pyInStr (needle hay : String) : Bool :=
  pyInL needle.toList hay.toList

/-- Python `s.split(',')`. -/
def pySplitComma : List Char → List (List Char)
  | [] => [[]]
  | c :: t =>
    if c = ',' then [] :: pySplitComma t
    else
      match pySplitComma t with
      | [] => [[c]]
      | h :: r => (c :: h) :: r

/-! ## JSON values and the Python operations on them -/

/-- A parsed JSON value.  Numbers keep their source lexeme: the code under
study never performs arithmetic, so this loses nothing and avoids floating
point. -/
inductive Json where
  | null : Json
  | bool (b : Bool) : Json
  | number (lit : String) : Json
  | str (s : String) : Json
  | arr (items : List Json) : Json
  | obj (fields : List (String × Json)) : Json

/-- Lookup of a key in an object's field list. -/
def lookupKey (k : String) : List (String × Json) → Option Json
  | [] => none
  | (k', v) :: rest => if k' = k then some v else lookupKey k rest

/-- Python `dict` assignment `d[k] = v`: replace in place if the key exists,
else append (insertion order is preserved, as in CPython). -/
def setKey (k : String) (v : Json) : List (String × Json) → List (String × Json)
  | [] => [(k, v)]
  | (k', v') :: rest => if k' = k then (k, v) :: rest else (k', v') :: setKey k v rest

/-- Remove the (unique) binding of a key from an object's field list. -/
def removeKey (k : String) : List (String × Json) → List (String × Json)
  | [] => []
  | (k', v') :: rest => if k' = k then rest else (k', v') :: removeKey k rest

/-- Whether an object's field list has a binding for `k`. -/
def hasKeyB (k : String) (fs : List (String × Json)) : Bool :=
  (lookupKey k fs).isSome

/-- Python `k in x` for a string key `k`: key membership on a dict, element
membership on a list, substring membership on a string, `TypeError`
(modelled as `none`) otherwise. -/
def pyContains (k : String) : Json → Option Bool
  | .obj fs => some (hasKeyB k fs)
  | .arr xs => some (xs.any fun x => match x with | .str s => decide (s = k) | _ => false)
  | .str s => some (pyInStr k s)
  | _ => none

/-- Python `x[k]` for a string key: dict lookup (`KeyError` when missing),
`TypeError` on every other value. -/
def getItem (k : String) : Json → Option Json
  | .obj fs => lookupKey k fs
  | _ => none

/-- Python `x[k] = v` for a string key: dict assignment, `TypeError` on every
other value. -/
def setItem (k : String) (v : Json) : Json → Option Json
  | .obj fs => some (.obj (setKey k v fs))
  | _ => none

/-- Calling a `str` method on a JSON value: succeeds exactly on strings
(`AttributeError` otherwise). -/
def asStr : Json → Option String
  | .str s => some s
  | _ => none

/-! ## The JSON parser (embedding of `json.loads`) -/

/-- JSON insignificant whitespace. -/
def jsonWs (c : Char) : Bool :=
  c == ' ' || c == '\t' || c == '\n' || c == '\r'

/-- Skip JSON whitespace. -/
def skipJWs (l : List Char) : List Char :=
  l.dropWhile jsonWs

/-- Decimal digit test. -/
def isDigitC (c : Char) : Bool :=
  '0' ≤ c && c ≤ '9'

/-- Value of one hexadecimal digit. -/
def hexVal (c : Char) : Option Nat :=
  if '0' ≤ c ∧ c ≤ '9' then some (c.toNat - 48)
  else if 'a' ≤ c ∧ c ≤ 'f' then some (c.toNat - 87)
  else if 'A' ≤ c ∧ c ≤ 'F' then some (c.toNat - 55)
  else none

/-- The character denoted by a one-character JSON escape. -/
def escChar : Char → Option Char
  | '"' => some '"'
  | '\\' => some '\\'
  | '/' => some '/'
  | 'b' => some '\x08'
  | 'f' => some '\x0c'
  | 'n' => some '\n'
  | 'r' => some '\r'
  | 't' => some '\t'
  | _ => none

/-- Parse the body of a JSON string literal (after the opening quote),
returning the decoded characters and the input after the closing quote.
Raw control characters are rejected, as in strict `json.loads`. -/
def parseStringBody : List Char → Option (List Char × List Char)
  | [] => none
  | c :: r =>
    if c = '"' then some ([], r)
    else if c = '\\' then
      match r with
      | [] => none
      | e :: r2 =>
        if e = 'u' then
          match r2 with
          | h1 :: h2 :: h3 :: h4 :: r3 =>
            match hexVal h1, hexVal h2, hexVal h3, hexVal h4 with
            | some a, some b, some c2, some d =>
              (parseStringBody r3).map fun p =>
                (Char.ofNat (a * 4096 + b * 256 + c2 * 16 + d) :: p.1, p.2)
            | _, _, _, _ => none
          | _ => none
        else
          match escChar e with
          | some ec => (parseStringBody r2).map fun p => (ec :: p.1, p.2)
          | none => none
    else if c.toNat < 32 then none
    else (parseStringBody r).map fun p => (c :: p.1, p.2)

/-- Parse the integer part of a JSON number (a single `0`, or a nonzero
digit followed by digits). -/
def parseIntPart : List Char → Option (List Char × List Char)
  | [] => none
  | c :: r =>
    if c = '0' then some (['0'], r)
    else if isDigitC c then some (c :: r.takeWhile isDigitC, r.dropWhile isDigitC)
    else none

/-- Parse the optional fraction part of a JSON number. -/
def parseFrac : List Char → Option (List Char × List Char)
  | '.' :: r =>
    match r with
    | c :: _ =>
      if isDigitC c then some ('.' :: r.takeWhile isDigitC, r.dropWhile isDigitC)
      else none
    | [] => none
  | t => some ([], t)

/-- Parse the optional exponent part of a JSON number. -/
def parseExp : List Char → Option (List Char × List Char)
  | c :: r =>
    if c = 'e' ∨ c = 'E' then
      match r with
      | s :: r2 =>
        if s = '+' ∨ s = '-' then
          match r2 with
          | d :: _ =>
            if isDigitC d then some (c :: s :: r2.takeWhile isDigitC, r2.dropWhile isDigitC)
            else none
          | [] => none
        else if isDigitC s then some (c :: r.takeWhile isDigitC, r.dropWhile isDigitC)
        else none
      | [] => none
    else some ([], c :: r)
  | [] => some ([], [])

/-- Parse a JSON number, keeping its lexeme. -/
def parseNum (t : List Char) : Option (Json × List Char) :=
  let sign : List Char × List Char := match t with | '-' :: r => (['-'], r) | _ => ([], t)
  match parseIntPart sign.2 with
  | none => none
  | some (ip, t2) =>
    match parseFrac t2 with
    | none => none
    | some (fp, t3) =>
      match parseExp t3 with
      | none => none
      | some (ep, t4) => some (.number (String.mk (sign.1 ++ ip ++ fp ++ ep)), t4)

/-- Build an object field list the way CPython's dict does on duplicate keys:
the first occurrence keeps its position, the last occurrence keeps its
value. -/
def objCons (k : String) (v : Json) (fs : List (String × Json)) : List (String × Json) :=
  match lookupKey k fs with
  | some v' => (k, v') :: removeKey k fs
  | none => (k, v) :: fs

/-- Fueled strict JSON value parser.  After one member of an object (resp.
array) and a comma, the rest of the members are parsed by re-entering the
parser on the remainder prefixed with `{` (resp. `[`); a closing bracket
right after a comma is rejected, as in strict `json.loads`. -/
def parseVal : Nat → List Char → Option (Json × List Char)
  | 0, _ => none
  | fuel + 1, t =>
    match skipJWs t with
    | [] => none
    | c :: r =>
      if c = '\x7b' then
        match skipJWs r with
        | '\x7d' :: r2 => some (.obj [], r2)
        | '"' :: r2 =>
          match parseStringBody r2 with
          | none => none
          | some (kcs, r3) =>
            match skipJWs r3 with
            | ':' :: r4 =>
              match parseVal fuel r4 with
              | none => none
              | some (v, r5) =>
                match skipJWs r5 with
                | ',' :: r6 =>
                  match skipJWs r6 with
                  | '\x7d' :: _ => none
                  | r7 =>
                    match parseVal fuel ('\x7b' :: r7) with
                    | some (.obj fs, r8) => some (.obj (objCons (String.mk kcs) v fs), r8)
                    | _ => none
                | '\x7d' :: r6 => some (.obj [(String.mk kcs, v)], r6)
                | _ => none
            | _ => none
        | _ => none
      else if c = '[' then
        match skipJWs r with
        | ']' :: r2 => some (.arr [], r2)
        | _ =>
          match parseVal fuel r with
          | none => none
          | some (v, r3) =>
            match skipJWs r3 with
            | ',' :: r4 =>
              match skipJWs r4 with
              | ']' :: _ => none
              | r5 =>
                match parseVal fuel ('[' :: r5) with
                | some (.arr vs, r6) => some (.arr (v :: vs), r6)
                | _ => none
            | ']' :: r4 => some (.arr [v], r4)
            | _ => none
      else if c = '"' then
        match parseStringBody r with
        | some (cs, r2) => some (.str (String.mk cs), r2)
        | none => none
      else if c = 't' then
        match dropPre ['r', 'u', 'e'] r with
        | some r2 => some (.bool true, r2)
        | none => none
      else if c = 'f' then
        match dropPre ['a', 'l', 's', 'e'] r with
        | some r2 => some (.bool false, r2)
        | none => none
      else if c = 'n' then
        match dropPre ['u', 'l', 'l'] r with
        | some r2 => some (.null, r2)
        | none => none
      else parseNum (c :: r)

/-- Embedding of `json.loads`: parse one value and require only whitespace
after it. -/
def parseJson (t : List Char) : Option Json :=
  match parseVal (t.length + 1) t with
  | some (v, rest) => if (skipJWs rest).isEmpty then some v else none
  | none => none

/-! ## The default analysis (`generate_default_analysis`, oct_analysis.py 201-235) -/

/-- The default per-eye sub-record (the `left_eye` literal of
`generate_default_analysis`; `right_eye` is a deep copy of it). -/
def defaultEyeFields : List (String × Json) :=
  [("dril", .obj [("status", .str "Absente"), ("extent", .str "")]),
   ("oedeme", .obj [("status", .str "Absent"), ("nb_logette", .str ""),
                    ("taille", .str ""), ("localisation", .str "")]),
   ("mle", .str "Continue"),
   ("ze", .str "Continue"),
   ("points_hyperreflectifs", .obj [("status", .str "Absents"), ("nombre", .str ""),
                                    ("localisation", .str "")]),
   ("epaisseur_retinienne", .obj [("central", .str ""), ("superieur", .str ""),
                                  ("inferieur", .str ""), ("nasal", .str ""),
                                  ("temporal", .str "")]),
   ("briding", .str "Absent"),
   ("decollement", .str "Absent")]

/-- The default per-eye sub-record as a JSON object. -/
def defaultEye : Json := .obj defaultEyeFields

/-- Embedding of `generate_default_analysis`. -/
def generate_default_analysis : Json :=
  .obj [("left_eye", defaultEye), ("right_eye", defaultEye)]

/-! ## The normalizer (`process_gpt_response`, oct_analysis.py 589-677) -/

/-- The status canonicalization shared by `dril`, `oedeme` and
`points_hyperreflectifs` (oct_analysis.py 623-625, 630-632, 654-656):
capitalize, keep an accepted value, otherwise re-derive from the
case-insensitive substring test for "present". -/
def normStatus (pos neg : String) (s : String) : String :=
  let c := pyCapitalize s
  if c = pos ∨ c = neg then c
  else if pyInStr "present" (pyLower c) then pos else neg

/-- The size synonym table `taille_mapping` (oct_analysis.py 601-610). -/
def taille_mapping : List (String × String) :=
  [("small", "petite"), ("medium", "grande"), ("large", "volumineuse"),
   ("petit", "petite"), ("grand", "grande"),
   ("<100", "petite"), ("100-200", "grande"), (">200", "volumineuse")]

/-- Association lookup in a string table. -/
def strLookup (k : String) : List (String × String) → Option String
  | [] => none
  | (a, b) :: rest => if a = k then some b else strLookup k rest

/-- The `oedeme.taille` canonicalization (oct_analysis.py 634-637):
lower-case, then `taille_mapping.get(taille, taille)`. -/
def tailleNorm (s : String) : String :=
  let low := pyLower s
  (strLookup low taille_mapping).getD low

/-- The `mle`/`ze` canonicalization (oct_analysis.py 639-648): lower-cased
substring tests for "continu" / "partiel" / "complet", first match wins,
no match leaves the value unchanged. -/
def normMleZe (s : String) : String :=
  let low := pyLower s
  if pyInL ("continu".toList) low.toList then "Continue"
  else if pyInL ("partiel".toList) low.toList then "Partiellement interrompue"
  else if pyInL ("complet".toList) low.toList then "Complètement interrompue"
  else s

/-- The DRIL block (oct_analysis.py 621-625).  A missing `status` key is a
`KeyError` and a non-string `status` an `AttributeError`, both `none`. -/
def processDril (e : Json) : Option Json :=
  match pyContains "dril" e with
  | none => none
  | some false => some e
  | some true =>
    match getItem "dril" e with
    | none => none
    | some (.obj dfs) =>
      match lookupKey "status" dfs with
      | some (.str st) =>
        setItem "dril" (.obj (setKey "status" (.str (normStatus "Présente" "Absente" st)) dfs)) e
      | some _ => none
      | none => none
    | some _ => some e

/-- The oedeme block (oct_analysis.py 628-637): status canonicalization,
then the `taille` synonym mapping when a `taille` key is present. -/
def processOedeme (e : Json) : Option Json :=
  match pyContains "oedeme" e with
  | none => none
  | some false => some e
  | some true =>
    match getItem "oedeme" e with
    | none => none
    | some (.obj ofs) =>
      match lookupKey "status" ofs with
      | some (.str st) =>
        let ofs1 := setKey "status" (.str (normStatus "Présent" "Absent" st)) ofs
        match lookupKey "taille" ofs1 with
        | none => setItem "oedeme" (.obj ofs1) e
        | some (.str tv) =>
          setItem "oedeme" (.obj (setKey "taille" (.str (tailleNorm tv)) ofs1)) e
        | some _ => none
      | some _ => none
      | none => none
    | some _ => some e

/-- One iteration of the `mle`/`ze` loop (oct_analysis.py 640-648).  When no
root matches, the code leaves the value untouched; writing the unchanged
value back is observationally identical. -/
def processField (f : String) (e : Json) : Option Json :=
  match pyContains f e with
  | none => none
  | some false => some e
  | some true =>
    match getItem f e with
    | none => none
    | some (.str v) => setItem f (.str (normMleZe v)) e
    | some _ => none

/-- The points hyperréflectifs block (oct_analysis.py 651-656). -/
def processPoints (e : Json) : Option Json :=
  match pyContains "points_hyperreflectifs" e with
  | none => none
  | some false => some e
  | some true =>
    match getItem "points_hyperreflectifs" e with
    | none => none
    | some (.obj pfs) =>
      match lookupKey "status" pfs with
      | some (.str st) =>
        setItem "points_hyperreflectifs"
          (.obj (setKey "status" (.str (normStatus "Présents" "Absents" st)) pfs)) e
      | some _ => none
      | none => none
    | some _ => some e

/-- The retinal thickness shape coercion (oct_analysis.py 659-668): a string
value is wrapped as the `central` sector, anything else is left alone. -/
def processEpaisseur (e : Json) : Option Json :=
  match pyContains "epaisseur_retinienne" e with
  | none => none
  | some false => some e
  | some true =>
    match getItem "epaisseur_retinienne" e with
    | none => none
    | some (.str s) =>
      setItem "epaisseur_retinienne"
        (.obj [("central", .str s), ("superieur", .str ""), ("inferieur", .str ""),
               ("nasal", .str ""), ("temporal", .str "")]) e
    | some _ => some e

/-- The default-fill loop (oct_analysis.py 670-674): for each key of the
default per-eye schema, copy the default value in when the key is absent.
Note the fill is shallow: it never descends into present sub-objects. -/
def fillDefaults (ds : List (String × Json)) (e : Json) : Option Json :=
  match ds with
  | [] => some e
  | (k, dv) :: rest =>
    match pyContains k e with
    | none => none
    | some true => fillDefaults rest e
    | some false =>
      match setItem k dv e with
      | none => none
      | some e' => fillDefaults rest e'

/-- The body of the per-eye loop for a present eye (oct_analysis.py
618-674). -/
def normalizeEye (e : Json) : Option Json :=
  match processDril e with
  | none => none
  | some e1 =>
    match processOedeme e1 with
    | none => none
    | some e2 =>
      match processField "mle" e2 with
      | none => none
      | some e3 =>
        match processField "ze" e3 with
        | none => none
        | some e4 =>
          match processPoints e4 with
          | none => none
          | some e5 =>
            match processEpaisseur e5 with
            | none => none
            | some e6 => fillDefaults defaultEyeFields e6

/-- One iteration of `for eye in ["left_eye", "right_eye"]`
(oct_analysis.py 613-674): an absent eye is replaced wholesale by the
default sub-record, a present eye is normalized in place. -/
def processEyeStep (ek : String) (v : Json) : Option Json :=
  match pyContains ek v with
  | none => none
  | some false => setItem ek defaultEye v
  | some true =>
    match getItem ek v with
    | none => none
    | some e =>
      match normalizeEye e with
      | none => none
      | some e' => setItem ek e' v

/-- Embedding of `process_gpt_response` (oct_analysis.py 589-677).  `none`
models a raised exception; mutation of the response dict is modelled by
returning the updated value, which is what the function returns. -/
def process_gpt_response (v : Json) : Option Json :=
  match pyContains "error" v with
  | none => none
  | some true => some generate_default_analysis
  | some false =>
    match processEyeStep "left_eye" v with
    | none => none
    | some v1 => processEyeStep "right_eye" v1

/-! ## Fence extraction and the response-text pipeline
(`analyze_with_gpt`, oct_analysis.py 556-580) -/

/-- The generic code-fence marker. -/
def fence3 : List Char := ['`', '`', '`']

/-- The JSON-tagged code-fence marker. -/
def fenceJson : List Char := fence3 ++ ['j', 's', 'o', 'n']

/-- Embedding of the fence-stripping logic (oct_analysis.py 562-569):
`text.split("```json")[1].split("```")[0].strip()` when a JSON-tagged fence
is present, else `text.split("```")[1].split("```")[0].strip()` when a
generic fence is present, else the text verbatim.  `split(sep)[1]` is the
chunk between the first and second occurrence of `sep` (or everything after
the first occurrence when it is the only one), i.e. `splitBefore` applied
to `splitAfter`. -/
def extractFenced (t : List Char) : List Char :=
  if pyInL fenceJson t then
    pyStrip (splitBefore fence3 (splitBefore fenceJson ((splitAfter fenceJson t).getD [])))
  else if pyInL fence3 t then
    pyStrip (splitBefore fence3 (splitBefore fence3 ((splitAfter fence3 t).getD [])))
  else t

/-- The Requestor's parse step (oct_analysis.py 571-580): `json.loads` on
success, an `{"error": str(e)}` object on `JSONDecodeError`.  Only the
presence of the `"error"` key is ever observed downstream, so the message
text is modelled by a fixed string. -/
def parseOrError (t : List Char) : Json :=
  match parseJson t with
  | some v => v
  | none => .obj [("error", .str "JSONDecodeError")]

/-- The response-text pipeline applied to the model's raw reply: the outer
`.strip()` (oct_analysis.py 558), fence extraction, strict JSON parse with
the error-object fallback, then normalization.  `none` models an exception
escaping `process_gpt_response`. -/
def pipelineL (t : List Char) : Option Json :=
  process_gpt_response (parseOrError (extractFenced (pyStrip t)))

/-- The pipeline on a string input. -/
def pipeline (s : String) : Option Json :=
  pipelineL s.toList

/-- Wrapping a text in a JSON-tagged markdown fence. -/
def wrapJsonFence (t : List Char) : List Char :=
  fenceJson ++ '\n' :: (t ++ '\n' :: fence3)

/-- Wrapping a text in a generic markdown fence. -/
def wrapFence (t : List Char) : List Char :=
  fence3 ++ '\n' :: (t ++ '\n' :: fence3)

/-! ## The image encoder (`encode_image_contents`, oct_analysis.py 196-199) -/

/-- Embedding of `encode_image_contents`:
`content_type, content_string = contents.split(',')` requires the split to
have exactly two parts (otherwise the tuple unpacking raises `ValueError`,
modelled as `none`), and returns the second. -/
def encode_image_contents (contents : String) : Option String :=
  match pySplitComma contents.toList with
  | [_, payload] => some (String.mk payload)
  | _ => none

/-! ## Patient creation (`save_new_patient`, patient_management.py 405-439,
and `add_patient`, models.py 133-139) -/

/-- Python truthiness of an optional form string (absent or empty is
falsy). -/
def truthyS : Option String → Bool
  | none => false
  | some s => !(s = "")

/-- Python truthiness of an optional numeric form value (absent or zero is
falsy). -/
def truthyI : Option Int → Bool
  | none => false
  | some n => !(n = 0)

/-- A patient record as built by `save_new_patient`. -/
structure PatientData where
  nom : String
  prenom : String
  sexe : Option String
  age : Int
  ivt_recu : Option String
  type_ivt : Option String
  nb_injections : Int
  molecule : Option String
  doctor : String
deriving DecidableEq

/-- The outputs of the save-patient callback that matter here: the alert
message, whether the alert opens, its color, the patients store after the
callback, and whether `add_patient` was invoked. -/
structure SaveOutcome where
  message : String
  alertOpen : Bool
  color : String
  patients : List PatientData
  addCalled : Bool
deriving DecidableEq

/-- Embedding of the `save_new_patient` callback (patient_management.py
405-439) threaded through the in-memory patients store.  `add_patient`
(models.py 133-139) appends to the store and always returns `True`, so the
failure alert branch after it is dead code. -/
def save_new_patient (n_clicks : Nat) (nom prenom : Option String) (age : Option Int)
    (sexe ivt_recu type_ivt : Option String) (nb_injections : Option Int)
    (molecule : Option String) (doctor : String)
    (patients : List PatientData) : SaveOutcome :=
  if n_clicks = 0 then
    ⟨"", false, "danger", patients, false⟩
  else if !truthyS nom ∨ !truthyS prenom ∨ !truthyI age then
    ⟨"Veuillez remplir tous les champs obligatoires (nom, prénom, âge).",
     true, "danger", patients, false⟩
  else if ivt_recu = some "Oui" ∧ (!truthyI nb_injections ∨ !truthyS molecule) then
    ⟨"Veuillez indiquer le nombre d'injections et la molécule.",
     true, "danger", patients, false⟩
  else
    let p : PatientData :=
      { nom := nom.getD "", prenom := prenom.getD "", sexe := sexe,
        age := age.getD 0, ivt_recu := ivt_recu,
        type_ivt := if ivt_recu = some "Oui" then type_ivt else some "",
        nb_injections :=
          if ivt_recu = some "Oui" ∧ truthyI nb_injections then nb_injections.getD 0 else 0,
        molecule := if ivt_recu = some "Oui" then molecule else some "",
        doctor := doctor }
    ⟨"Patient " ++ nom.getD "" ++ " " ++ prenom.getD "" ++ " ajouté avec succès !",
     true, "success", patients ++ [p], true⟩

/-- A syntactically valid AnalysisResult JSON text whose left `dril.status`
string itself contains generic fence markers.  Built to exercise the fence
stripping of `analyze_with_gpt` on a response whose body contains
backticks. -/
def backtickStatusResponse : String :=
  "\x7b\"left_eye\": \x7b\"dril\": \x7b\"status\": \"x``` 1 ```y\", \"extent\": \"\"\x7d, \"oedeme\": \x7b\"status\": \"Absent\", \"nb_logette\": \"\", \"taille\": \"\", \"localisation\": \"\"\x7d, \"mle\": \"Continue\", \"ze\": \"Continue\", \"points_hyperreflectifs\": \x7b\"status\": \"Absents\", \"nombre\": \"\", \"localisation\": \"\"\x7d, \"epaisseur_retinienne\": \x7b\"central\": \"300\", \"superieur\": \"\", \"inferieur\": \"\", \"nasal\": \"\", \"temporal\": \"\"\x7d\x7d, \"right_eye\": \x7b\"dril\": \x7b\"status\": \"Absente\", \"extent\": \"\"\x7d, \"oedeme\": \x7b\"status\": \"Absent\", \"nb_logette\": \"\", \"taille\": \"\", \"localisation\": \"\"\x7d, \"mle\": \"Continue\", \"ze\": \"Continue\", \"points_hyperreflectifs\": \x7b\"status\": \"Absents\", \"nombre\": \"\", \"localisation\": \"\"\x7d, \"epaisseur_retinienne\": \x7b\"central\": \"280\", \"superieur\": \"\", \"inferieur\": \"\", \"nasal\": \"\", \"temporal\": \"\"\x7d\x7d\x7d"

/-! ## Helper lemmas: association lists -/

theorem lookupKey_setKey_self (k : String) (v : Json) (fs : List (String × Json)) :
    lookupKey k (setKey k v fs) = some v := by
  induction fs with
  | nil => simp [setKey, lookupKey]
  | cons h rest ih =>
    obtain ⟨k', v'⟩ := h
    by_cases hk : k' = k
    · simp [setKey, hk, lookupKey]
    · simp [setKey, hk, lookupKey, ih]

theorem lookupKey_setKey_ne (k k' : String) (v : Json) (fs : List (String × Json))
    (h : k' ≠ k) : lookupKey k (setKey k' v fs) = lookupKey k fs := by
  induction fs with
  | nil => simp [setKey, lookupKey, h]
  | cons hd rest ih =>
    obtain ⟨k'', v''⟩ := hd
    by_cases hk : k'' = k'
    · subst hk
      simp [setKey, lookupKey, h]
    · by_cases hk2 : k'' = k
      · subst hk2
        simp [setKey, lookupKey, Ne.symm h]
      · simp [setKey, hk, lookupKey, hk2, ih]

theorem hasKeyB_setKey (k k' : String) (v : Json) (fs : List (String × Json)) :
    hasKeyB k (setKey k' v fs) = (k' = k ∨ hasKeyB k fs = true) := by
  by_cases h : k' = k
  · subst h
    simp [hasKeyB, lookupKey_setKey_self]
  · simp [hasKeyB, lookupKey_setKey_ne k k' v fs h, h]

/-! ## Helper lemmas: substring search -/

theorem dropPre_self_append (p r : List Char) : dropPre p (p ++ r) = some r := by
  induction p with
  | nil => simp [dropPre]
  | cons a p ih => simp [dropPre, ih]

theorem dropPre_append_eq (p q l : List Char) :
    dropPre (p ++ q) l = (dropPre p l).bind (dropPre q) := by
  induction p generalizing l with
  | nil => simp [dropPre]
  | cons a p ih =>
    cases l with
    | nil => simp [dropPre]
    | cons b t =>
      by_cases h : a = b
      · simp [dropPre, h, ih]
      · simp [dropPre, h]

theorem dropPre_extend_none (p z w : List Char) (c : Char) :
    c ∉ p → dropPre p z = none → dropPre p (z ++ c :: w) = none := by
  induction p generalizing z with
  | nil =>
    intro _ h
    simp [dropPre] at h
  | cons a p ih =>
    intro hc h
    cases z with
    | nil =>
      have hac : a ≠ c := fun he => hc (he ▸ List.mem_cons_self a p)
      simp [dropPre, hac]
    | cons b t =>
      by_cases hab : a = b
      · subst hab
        have hcp : c ∉ p := fun hm => hc (List.mem_cons_of_mem a hm)
        simp only [dropPre, if_pos rfl] at h
        have := ih t hcp h
        simpa [dropPre] using this
      · simp [dropPre, hab]

theorem splitAfter_cons_none (p : List Char) (c : Char) (t : List Char)
    (h1 : dropPre p (c :: t) = none) (h2 : splitAfter p t = none) :
    splitAfter p (c :: t) = none := by
  simp [splitAfter, h1, h2]

theorem splitAfter_cons_inv (p : List Char) (c : Char) (t : List Char)
    (h : splitAfter p (c :: t) = none) :
    dropPre p (c :: t) = none ∧ splitAfter p t = none := by
  cases hd : dropPre p (c :: t) with
  | some r => simp [splitAfter, hd] at h
  | none =>
    refine ⟨rfl, ?_⟩
    simpa [splitAfter, hd] using h

theorem splitAfter_self_append (p r : List Char) (hp : p ≠ []) :
    splitAfter p (p ++ r) = some r := by
  cases p with
  | nil => exact absurd rfl hp
  | cons a p =>
    have h : dropPre (a :: p) (a :: (p ++ r)) = some r := dropPre_self_append (a :: p) r
    simp [splitAfter, h]

theorem splitAfter_mono_none (p q l : List Char) (h : splitAfter p l = none) :
    splitAfter (p ++ q) l = none := by
  induction l with
  | nil =>
    simp only [splitAfter] at h ⊢
    simp [dropPre_append_eq, h]
  | cons c t ih =>
    obtain ⟨h1, h2⟩ := splitAfter_cons_inv p c t h
    exact splitAfter_cons_none _ _ _ (by simp [dropPre_append_eq, h1]) (ih h2)

theorem splitAfter_append_none (p s w : List Char) (c : Char)
    (hc : c ∉ p) (hs : splitAfter p s = none) (hw : splitAfter p w = none) :
    splitAfter p (s ++ c :: w) = none := by
  induction s with
  | nil =>
    cases p with
    | nil =>
      cases w with
      | nil => simp [splitAfter, dropPre] at hw
      | cons x xs => simp [splitAfter, dropPre] at hw
    | cons a p' =>
      have hac : a ≠ c := fun he => hc (he ▸ List.mem_cons_self a p')
      simpa [splitAfter, dropPre, hac] using hw
  | cons d s' ih =>
    obtain ⟨h1, h2⟩ := splitAfter_cons_inv p d s' hs
    have : dropPre p ((d :: s') ++ c :: w) = none := dropPre_extend_none p (d :: s') w c hc h1
    simp only [List.cons_append] at this ⊢
    exact splitAfter_cons_none _ _ _ this (ih h2)

theorem splitBefore_of_none (p l : List Char) (h : splitAfter p l = none) :
    splitBefore p l = l := by
  induction l with
  | nil => simp [splitBefore]
  | cons c t ih =>
    obtain ⟨h1, h2⟩ := splitAfter_cons_inv p c t h
    simp [splitBefore, h1, ih h2]

theorem splitBefore_append (p s w : List Char) (c : Char)
    (hc : c ∉ p) (hp : p ≠ []) (hs : splitAfter p s = none) :
    splitBefore p (s ++ c :: (p ++ w)) = s ++ [c] := by
  induction s with
  | nil =>
    cases p with
    | nil => exact absurd rfl hp
    | cons a p' =>
      have hac : a ≠ c := fun he => hc (he ▸ List.mem_cons_self a p')
      have h1 : dropPre (a :: p') (c :: (a :: (p' ++ w))) = none := by
        simp [dropPre, hac]
      have h2 : dropPre (a :: p') (a :: (p' ++ w)) = some w := dropPre_self_append (a :: p') w
      simp [splitBefore, h1, h2]
  | cons d s' ih =>
    obtain ⟨h1, h2⟩ := splitAfter_cons_inv p d s' hs
    have hnone : dropPre p (d :: (s' ++ c :: (p ++ w))) = none := by
      have h3 := dropPre_extend_none p (d :: s') (p ++ w) c hc h1
      simpa using h3
    simp [splitBefore, hnone, ih h2]

/-! ## Helper lemmas: stripping -/

theorem dropWhile_append_split (P : Char → Bool) (l₁ l₂ : List Char) :
    List.dropWhile P (l₁ ++ l₂) =
      if (List.dropWhile P l₁).isEmpty then List.dropWhile P l₂
      else List.dropWhile P l₁ ++ l₂ := by
  induction l₁ with
  | nil => simp
  | cons c t ih =>
    by_cases h : P c
    · simpa [List.dropWhile, h] using ih
    · simp [List.dropWhile, h]

theorem pyStrip_cons_space (c : Char) (l : List Char) (h : pySpace c = true) :
    pyStrip (c :: l) = pyStrip l := by
  simp [pyStrip, List.dropWhile, h]

theorem pyStrip_append_space (c : Char) (l : List Char) (h : pySpace c = true) :
    pyStrip (l ++ [c]) = pyStrip l := by
  unfold pyStrip
  rw [dropWhile_append_split]
  by_cases he : (List.dropWhile pySpace l).isEmpty
  · rw [if_pos he]
    have h1 : List.dropWhile pySpace [c] = ([] : List Char) := by
      simp [List.dropWhile, h]
    have h2 : List.dropWhile pySpace l = ([] : List Char) := by
      cases hd : List.dropWhile pySpace l with
      | nil => rfl
      | cons x xs => simp [hd] at he
    rw [h1, h2]
  · rw [if_neg he, List.reverse_append]
    have h1 : ([c] : List Char).reverse = [c] := by simp
    rw [h1, List.singleton_append,
        List.dropWhile_cons_of_pos (by simpa using h)]

theorem pyStrip_noop_ends (a b : Char) (m : List Char)
    (ha : pySpace a = false) (hb : pySpace b = false) :
    pyStrip (a :: (m ++ [b])) = a :: (m ++ [b]) := by
  unfold pyStrip
  rw [List.dropWhile_cons_of_neg (by simp [ha])]
  have hrev : (a :: (m ++ [b])).reverse = b :: (m.reverse ++ [a]) := by
    simp
  rw [hrev, List.dropWhile_cons_of_neg (by simp [hb])]
  simp

/-! ## Helper lemmas: fence extraction -/

theorem splitAfter_fenceJson_of_no_fence3 (t : List Char)
    (h : splitAfter fence3 t = none) : splitAfter fenceJson t = none := by
  have : fenceJson = fence3 ++ ['j', 's', 'o', 'n'] := rfl
  rw [this]
  exact splitAfter_mono_none _ _ _ h

theorem dropPre_fenceJson_nl (x : List Char) :
    dropPre fenceJson ('\n' :: x) = none := by
  have h : ('`' : Char) ≠ '\n' := by decide
  simp [fenceJson, fence3, dropPre, h]

theorem dropPre_fence3_nl (x : List Char) :
    dropPre fence3 ('\n' :: x) = none := by
  have h : ('`' : Char) ≠ '\n' := by decide
  simp [fence3, dropPre, h]

theorem splitAfter_fenceJson_rest (t : List Char)
    (h : splitAfter fence3 t = none) :
    splitAfter fenceJson ('\n' :: (t ++ '\n' :: fence3)) = none := by
  have h1 : splitAfter fenceJson t = none := splitAfter_fenceJson_of_no_fence3 t h
  have h2 : splitAfter fenceJson fence3 = none := by decide
  have h3 : ('\n' : Char) ∉ fenceJson := by decide
  have h4 : splitAfter fenceJson (t ++ '\n' :: fence3) = none :=
    splitAfter_append_none fenceJson t fence3 '\n' h3 h1 h2
  exact splitAfter_cons_none _ _ _ (dropPre_fenceJson_nl _) h4

theorem splitAfter_fence3_nl_cons (t : List Char)
    (h : splitAfter fence3 t = none) :
    splitAfter fence3 ('\n' :: t) = none :=
  splitAfter_cons_none _ _ _ (dropPre_fence3_nl _) h

theorem splitBefore_fence3_rest (t : List Char)
    (h : splitAfter fence3 t = none) :
    splitBefore fence3 ('\n' :: (t ++ '\n' :: fence3)) = '\n' :: (t ++ ['\n']) := by
  have hc : ('\n' : Char) ∉ fence3 := by decide
  have hp : fence3 ≠ [] := by decide
  have hs : splitAfter fence3 ('\n' :: t) = none := splitAfter_fence3_nl_cons t h
  have := splitBefore_append fence3 ('\n' :: t) [] '\n' hc hp hs
  simpa using this

theorem splitAfter_fence3_mid (t : List Char)
    (h : splitAfter fence3 t = none) :
    splitAfter fence3 ('\n' :: (t ++ ['\n'])) = none := by
  have hc : ('\n' : Char) ∉ fence3 := by decide
  have hs : splitAfter fence3 ('\n' :: t) = none := splitAfter_fence3_nl_cons t h
  have hnil : splitAfter fence3 ([] : List Char) = none := by decide
  have := splitAfter_append_none fence3 ('\n' :: t) [] '\n' hc hs hnil
  simpa using this

theorem pyStrip_nl_wrap (t : List Char) :
    pyStrip ('\n' :: (t ++ ['\n'])) = pyStrip t := by
  rw [pyStrip_cons_space '\n' _ (by decide), pyStrip_append_space '\n' t (by decide)]

theorem extractFenced_wrapJson (t : List Char) (h : splitAfter fence3 t = none) :
    extractFenced (wrapJsonFence t) = pyStrip t := by
  have hrest := splitAfter_fenceJson_rest t h
  have hsa : splitAfter fenceJson (wrapJsonFence t) = some ('\n' :: (t ++ '\n' :: fence3)) := by
    have : wrapJsonFence t = fenceJson ++ ('\n' :: (t ++ '\n' :: fence3)) := rfl
    rw [this]
    exact splitAfter_self_append _ _ (by decide)
  have hguard : pyInL fenceJson (wrapJsonFence t) = true := by
    simp [pyInL, hsa]
  rw [extractFenced, if_pos hguard, hsa]
  simp only [Option.getD_some]
  rw [splitBefore_of_none _ _ hrest, splitBefore_fence3_rest t h, pyStrip_nl_wrap]

theorem splitAfter_fenceJson_wrapFence (t : List Char)
    (h : splitAfter fence3 t = none) :
    splitAfter fenceJson (wrapFence t) = none := by
  have hrest := splitAfter_fenceJson_rest t h
  have hj : ('j' : Char) ≠ '\n' := by decide
  have hb : ('`' : Char) ≠ '\n' := by decide
  show splitAfter fenceJson ('`' :: '`' :: '`' :: ('\n' :: (t ++ '\n' :: fence3))) = none
  refine splitAfter_cons_none _ _ _ ?_ ?_
  · simp [fenceJson, fence3, dropPre, hj]
  refine splitAfter_cons_none _ _ _ ?_ ?_
  · simp [fenceJson, fence3, dropPre, hb]
  refine splitAfter_cons_none _ _ _ ?_ ?_
  · simp [fenceJson, fence3, dropPre, hb]
  exact hrest

theorem extractFenced_wrapFence (t : List Char) (h : splitAfter fence3 t = none) :
    extractFenced (wrapFence t) = pyStrip t := by
  have hguardJ : pyInL fenceJson (wrapFence t) = false := by
    simp [pyInL, splitAfter_fenceJson_wrapFence t h]
  have hsa : splitAfter fence3 (wrapFence t) = some ('\n' :: (t ++ '\n' :: fence3)) := by
    have : wrapFence t = fence3 ++ ('\n' :: (t ++ '\n' :: fence3)) := rfl
    rw [this]
    exact splitAfter_self_append _ _ (by decide)
  have hguard3 : pyInL fence3 (wrapFence t) = true := by
    simp [pyInL, hsa]
  rw [extractFenced, if_neg (by simp [hguardJ]), if_pos hguard3, hsa]
  simp only [Option.getD_some]
  rw [splitBefore_fence3_rest t h,
      splitBefore_of_none _ _ (splitAfter_fence3_mid t h), pyStrip_nl_wrap]

theorem extractFenced_verbatim (t : List Char) (h : splitAfter fence3 t = none) :
    extractFenced t = t := by
  have hj : pyInL fenceJson t = false := by
    simp [pyInL, splitAfter_fenceJson_of_no_fence3 t h]
  have h3 : pyInL fence3 t = false := by
    simp [pyInL, h]
  rw [extractFenced, if_neg (by simp [hj]), if_neg (by simp [h3])]

theorem pyStrip_wrapJson_noop (t : List Char) :
    pyStrip (wrapJsonFence t) = wrapJsonFence t := by
  have hshape : wrapJsonFence t =
      '`' :: ((['`', '`', 'j', 's', 'o', 'n', '\n'] ++ (t ++ ['\n', '`', '`'])) ++ ['`']) := by
    simp [wrapJsonFence, fenceJson, fence3]
  rw [hshape]
  exact pyStrip_noop_ends _ _ _ (by decide) (by decide)

theorem pyStrip_wrapFence_noop (t : List Char) :
    pyStrip (wrapFence t) = wrapFence t := by
  have hshape : wrapFence t =
      '`' :: ((['`', '`', '\n'] ++ (t ++ ['\n', '`', '`'])) ++ ['`']) := by
    simp [wrapFence, fence3]
  rw [hshape]
  exact pyStrip_noop_ends _ _ _ (by decide) (by decide)

/-! ## Schema predicates -/

/-- The top-level keys of the default per-eye schema. -/
def requiredEyeKeys : List String :=
  ["dril", "oedeme", "mle", "ze", "points_hyperreflectifs",
   "epaisseur_retinienne", "briding", "decollement"]

/-- An eye value is an object carrying every top-level key of the default
schema. -/
def eyeTopComplete (j : Json) : Bool :=
  match j with
  | .obj fs => requiredEyeKeys.all fun k => hasKeyB k fs
  | _ => false

/-- A normalized result is an object whose two eye entries are present and
top-level complete. -/
def topComplete (j : Json) : Bool :=
  match j with
  | .obj fs =>
    (match lookupKey "left_eye" fs with
     | some e => eyeTopComplete e
     | none => false) &&
    (match lookupKey "right_eye" fs with
     | some e => eyeTopComplete e
     | none => false)
  | _ => false

/-- The `dril`/`points_hyperreflectifs` entry, when it is an object, carries
a string `status` (the shape the code can normalize without raising). -/
def statusFieldOK (name : String) (fs : List (String × Json)) : Bool :=
  match lookupKey name fs with
  | some (.obj sub) =>
    match lookupKey "status" sub with
    | some (.str _) => true
    | _ => false
  | some _ => true
  | none => true

/-- The `oedeme` entry, when it is an object, carries a string `status` and
a string `taille` when a `taille` key is present. -/
def oedemeOK (fs : List (String × Json)) : Bool :=
  match lookupKey "oedeme" fs with
  | some (.obj sub) =>
    (match lookupKey "status" sub with
     | some (.str _) => true
     | _ => false) &&
    (match lookupKey "taille" sub with
     | none => true
     | some (.str _) => true
     | some _ => false)
  | some _ => true
  | none => true

/-- The `mle`/`ze` entry, when present, is a string. -/
def strOK (name : String) (fs : List (String × Json)) : Bool :=
  match lookupKey name fs with
  | none => true
  | some (.str _) => true
  | some _ => false

/-- An eye value the normalizer can process without raising: an object whose
normalized sub-entries have the shapes above (`epaisseur_retinienne` may be
anything: the coercion step never raises on a present key of any type). -/
def eyeOK (j : Json) : Bool :=
  match j with
  | .obj fs =>
    statusFieldOK "dril" fs && oedemeOK fs && strOK "mle" fs && strOK "ze" fs &&
      statusFieldOK "points_hyperreflectifs" fs
  | _ => false

/-- A parsed response the normalizer can process without raising: an object
that either declares an error or whose present eye entries satisfy
`eyeOK`. -/
def responseOK (v : Json) : Bool :=
  match v with
  | .obj fs =>
    hasKeyB "error" fs ||
    ((match lookupKey "left_eye" fs with
      | none => true
      | some e => eyeOK e) &&
     (match lookupKey "right_eye" fs with
      | none => true
      | some e => eyeOK e))
  | _ => false

/-! ## Helper lemmas: success shapes of the normalizer steps -/

theorem lookupKey_setKey_isSome (k k' : String) (v : Json) (fs : List (String × Json))
    (h : (lookupKey k fs).isSome = true) :
    (lookupKey k (setKey k' v fs)).isSome = true := by
  by_cases hk : k' = k
  · subst hk
    simp [lookupKey_setKey_self]
  · rw [lookupKey_setKey_ne k k' v fs hk]
    exact h

theorem processDril_shape (fs : List (String × Json)) (e' : Json)
    (h : processDril (.obj fs) = some e') :
    ∃ fs', e' = .obj fs' ∧ ∀ k, k ≠ "dril" → lookupKey k fs' = lookupKey k fs := by
  cases hl : lookupKey "dril" fs with
  | none =>
    have h2 : Json.obj fs = e' := by
      simpa [processDril, pyContains, hasKeyB, hl] using h
    exact ⟨fs, h2.symm, fun k _ => rfl⟩
  | some d =>
    cases d with
    | obj dfs =>
      cases hs : lookupKey "status" dfs with
      | none => simp [processDril, pyContains, hasKeyB, hl, getItem, hs] at h
      | some sv =>
        cases sv with
        | str st =>
          have h2 : Json.obj (setKey "dril"
              (.obj (setKey "status" (.str (normStatus "Présente" "Absente" st)) dfs)) fs) = e' := by
            simpa [processDril, pyContains, hasKeyB, hl, getItem, hs, setItem] using h
          exact ⟨_, h2.symm, fun k hk => lookupKey_setKey_ne k "dril" _ fs (Ne.symm hk)⟩
        | null => simp [processDril, pyContains, hasKeyB, hl, getItem, hs] at h
        | bool b => simp [processDril, pyContains, hasKeyB, hl, getItem, hs] at h
        | number n => simp [processDril, pyContains, hasKeyB, hl, getItem, hs] at h
        | arr xs => simp [processDril, pyContains, hasKeyB, hl, getItem, hs] at h
        | obj o => simp [processDril, pyContains, hasKeyB, hl, getItem, hs] at h
    | null =>
      have h2 : Json.obj fs = e' := by
        simpa [processDril, pyContains, hasKeyB, hl, getItem] using h
      exact ⟨fs, h2.symm, fun k _ => rfl⟩
    | bool b =>
      have h2 : Json.obj fs = e' := by
        simpa [processDril, pyContains, hasKeyB, hl, getItem] using h
      exact ⟨fs, h2.symm, fun k _ => rfl⟩
    | number n =>
      have h2 : Json.obj fs = e' := by
        simpa [processDril, pyContains, hasKeyB, hl, getItem] using h
      exact ⟨fs, h2.symm, fun k _ => rfl⟩
    | str s =>
      have h2 : Json.obj fs = e' := by
        simpa [processDril, pyContains, hasKeyB, hl, getItem] using h
      exact ⟨fs, h2.symm, fun k _ => rfl⟩
    | arr xs =>
      have h2 : Json.obj fs = e' := by
        simpa [processDril, pyContains, hasKeyB, hl, getItem] using h
      exact ⟨fs, h2.symm, fun k _ => rfl⟩

theorem processOedeme_shape (fs : List (String × Json)) (e' : Json)
    (h : processOedeme (.obj fs) = some e') :
    ∃ fs', e' = .obj fs' ∧ ∀ k, k ≠ "oedeme" → lookupKey k fs' = lookupKey k fs := by
  cases hl : lookupKey "oedeme" fs with
  | none =>
    have h2 : Json.obj fs = e' := by
      simpa [processOedeme, pyContains, hasKeyB, hl] using h
    exact ⟨fs, h2.symm, fun k _ => rfl⟩
  | some d =>
    cases d with
    | obj ofs =>
      cases hs : lookupKey "status" ofs with
      | none => simp [processOedeme, pyContains, hasKeyB, hl, getItem, hs] at h
      | some sv =>
        cases sv with
        | str st =>
          cases ht : lookupKey "taille"
              (setKey "status" (.str (normStatus "Présent" "Absent" st)) ofs) with
          | none =>
            have h2 : Json.obj (setKey "oedeme"
                (.obj (setKey "status" (.str (normStatus "Présent" "Absent" st)) ofs)) fs) = e' := by
              simpa [processOedeme, pyContains, hasKeyB, hl, getItem, hs, ht, setItem] using h
            exact ⟨_, h2.symm, fun k hk => lookupKey_setKey_ne k "oedeme" _ fs (Ne.symm hk)⟩
          | some tv =>
            cases tv with
            | str tvs =>
              have h2 : Json.obj (setKey "oedeme"
                  (.obj (setKey "taille" (.str (tailleNorm tvs))
                    (setKey "status" (.str (normStatus "Présent" "Absent" st)) ofs))) fs) = e' := by
                simpa [processOedeme, pyContains, hasKeyB, hl, getItem, hs, ht, setItem] using h
              exact ⟨_, h2.symm, fun k hk => lookupKey_setKey_ne k "oedeme" _ fs (Ne.symm hk)⟩
            | null => simp [processOedeme, pyContains, hasKeyB, hl, getItem, hs, ht] at h
            | bool b => simp [processOedeme, pyContains, hasKeyB, hl, getItem, hs, ht] at h
            | number n => simp [processOedeme, pyContains, hasKeyB, hl, getItem, hs, ht] at h
            | arr xs => simp [processOedeme, pyContains, hasKeyB, hl, getItem, hs, ht] at h
            | obj o => simp [processOedeme, pyContains, hasKeyB, hl, getItem, hs, ht] at h
        | null => simp [processOedeme, pyContains, hasKeyB, hl, getItem, hs] at h
        | bool b => simp [processOedeme, pyContains, hasKeyB, hl, getItem, hs] at h
        | number n => simp [processOedeme, pyContains, hasKeyB, hl, getItem, hs] at h
        | arr xs => simp [processOedeme, pyContains, hasKeyB, hl, getItem, hs] at h
        | obj o => simp [processOedeme, pyContains, hasKeyB, hl, getItem, hs] at h
    | null =>
      have h2 : Json.obj fs = e' := by
        simpa [processOedeme, pyContains, hasKeyB, hl, getItem] using h
      exact ⟨fs, h2.symm, fun k _ => rfl⟩
    | bool b =>
      have h2 : Json.obj fs = e' := by
        simpa [processOedeme, pyContains, hasKeyB, hl, getItem] using h
      exact ⟨fs, h2.symm, fun k _ => rfl⟩
    | number n =>
      have h2 : Json.obj fs = e' := by
        simpa [processOedeme, pyContains, hasKeyB, hl, getItem] using h
      exact ⟨fs, h2.symm, fun k _ => rfl⟩
    | str s =>
      have h2 : Json.obj fs = e' := by
        simpa [processOedeme, pyContains, hasKeyB, hl, getItem] using h
      exact ⟨fs, h2.symm, fun k _ => rfl⟩
    | arr xs =>
      have h2 : Json.obj fs = e' := by
        simpa [processOedeme, pyContains, hasKeyB, hl, getItem] using h
      exact ⟨fs, h2.symm, fun k _ => rfl⟩

theorem processField_shape (f : String) (fs : List (String × Json)) (e' : Json)
    (h : processField f (.obj fs) = some e') :
    ∃ fs', e' = .obj fs' ∧ ∀ k, k ≠ f → lookupKey k fs' = lookupKey k fs := by
  cases hl : lookupKey f fs with
  | none =>
    have h2 : Json.obj fs = e' := by
      simpa [processField, pyContains, hasKeyB, hl] using h
    exact ⟨fs, h2.symm, fun k _ => rfl⟩
  | some d =>
    cases d with
    | str v =>
      have h2 : Json.obj (setKey f (.str (normMleZe v)) fs) = e' := by
        simpa [processField, pyContains, hasKeyB, hl, getItem, setItem] using h
      exact ⟨_, h2.symm, fun k hk => lookupKey_setKey_ne k f _ fs (Ne.symm hk)⟩
    | null => simp [processField, pyContains, hasKeyB, hl, getItem] at h
    | bool b => simp [processField, pyContains, hasKeyB, hl, getItem] at h
    | number n => simp [processField, pyContains, hasKeyB, hl, getItem] at h
    | arr xs => simp [processField, pyContains, hasKeyB, hl, getItem] at h
    | obj o => simp [processField, pyContains, hasKeyB, hl, getItem] at h

theorem processPoints_shape (fs : List (String × Json)) (e' : Json)
    (h : processPoints (.obj fs) = some e') :
    ∃ fs', e' = .obj fs' ∧
      ∀ k, k ≠ "points_hyperreflectifs" → lookupKey k fs' = lookupKey k fs := by
  cases hl : lookupKey "points_hyperreflectifs" fs with
  | none =>
    have h2 : Json.obj fs = e' := by
      simpa [processPoints, pyContains, hasKeyB, hl] using h
    exact ⟨fs, h2.symm, fun k _ => rfl⟩
  | some d =>
    cases d with
    | obj pfs =>
      cases hs : lookupKey "status" pfs with
      | none => simp [processPoints, pyContains, hasKeyB, hl, getItem, hs] at h
      | some sv =>
        cases sv with
        | str st =>
          have h2 : Json.obj (setKey "points_hyperreflectifs"
              (.obj (setKey "status" (.str (normStatus "Présents" "Absents" st)) pfs)) fs) = e' := by
            simpa [processPoints, pyContains, hasKeyB, hl, getItem, hs, setItem] using h
          exact ⟨_, h2.symm, fun k hk =>
            lookupKey_setKey_ne k "points_hyperreflectifs" _ fs (Ne.symm hk)⟩
        | null => simp [processPoints, pyContains, hasKeyB, hl, getItem, hs] at h
        | bool b => simp [processPoints, pyContains, hasKeyB, hl, getItem, hs] at h
        | number n => simp [processPoints, pyContains, hasKeyB, hl, getItem, hs] at h
        | arr xs => simp [processPoints, pyContains, hasKeyB, hl, getItem, hs] at h
        | obj o => simp [processPoints, pyContains, hasKeyB, hl, getItem, hs] at h
    | null =>
      have h2 : Json.obj fs = e' := by
        simpa [processPoints, pyContains, hasKeyB, hl, getItem] using h
      exact ⟨fs, h2.symm, fun k _ => rfl⟩
    | bool b =>
      have h2 : Json.obj fs = e' := by
        simpa [processPoints, pyContains, hasKeyB, hl, getItem] using h
      exact ⟨fs, h2.symm, fun k _ => rfl⟩
    | number n =>
      have h2 : Json.obj fs = e' := by
        simpa [processPoints, pyContains, hasKeyB, hl, getItem] using h
      exact ⟨fs, h2.symm, fun k _ => rfl⟩
    | str s =>
      have h2 : Json.obj fs = e' := by
        simpa [processPoints, pyContains, hasKeyB, hl, getItem] using h
      exact ⟨fs, h2.symm, fun k _ => rfl⟩
    | arr xs =>
      have h2 : Json.obj fs = e' := by
        simpa [processPoints, pyContains, hasKeyB, hl, getItem] using h
      exact ⟨fs, h2.symm, fun k _ => rfl⟩

theorem processEpaisseur_shape (fs : List (String × Json)) (e' : Json)
    (h : processEpaisseur (.obj fs) = some e') :
    ∃ fs', e' = .obj fs' ∧
      ∀ k, k ≠ "epaisseur_retinienne" → lookupKey k fs' = lookupKey k fs := by
  cases hl : lookupKey "epaisseur_retinienne" fs with
  | none =>
    have h2 : Json.obj fs = e' := by
      simpa [processEpaisseur, pyContains, hasKeyB, hl] using h
    exact ⟨fs, h2.symm, fun k _ => rfl⟩
  | some d =>
    cases d with
    | str s =>
      have h2 : Json.obj (setKey "epaisseur_retinienne"
          (.obj [("central", .str s), ("superieur", .str ""), ("inferieur", .str ""),
                 ("nasal", .str ""), ("temporal", .str "")]) fs) = e' := by
        simpa [processEpaisseur, pyContains, hasKeyB, hl, getItem, setItem] using h
      exact ⟨_, h2.symm, fun k hk =>
        lookupKey_setKey_ne k "epaisseur_retinienne" _ fs (Ne.symm hk)⟩
    | null =>
      have h2 : Json.obj fs = e' := by
        simpa [processEpaisseur, pyContains, hasKeyB, hl, getItem] using h
      exact ⟨fs, h2.symm, fun k _ => rfl⟩
    | bool b =>
      have h2 : Json.obj fs = e' := by
        simpa [processEpaisseur, pyContains, hasKeyB, hl, getItem] using h
      exact ⟨fs, h2.symm, fun k _ => rfl⟩
    | number n =>
      have h2 : Json.obj fs = e' := by
        simpa [processEpaisseur, pyContains, hasKeyB, hl, getItem] using h
      exact ⟨fs, h2.symm, fun k _ => rfl⟩
    | arr xs =>
      have h2 : Json.obj fs = e' := by
        simpa [processEpaisseur, pyContains, hasKeyB, hl, getItem] using h
      exact ⟨fs, h2.symm, fun k _ => rfl⟩
    | obj o =>
      have h2 : Json.obj fs = e' := by
        simpa [processEpaisseur, pyContains, hasKeyB, hl, getItem] using h
      exact ⟨fs, h2.symm, fun k _ => rfl⟩

theorem fillDefaults_obj (ds : List (String × Json)) (fs : List (String × Json)) (e' : Json)
    (h : fillDefaults ds (.obj fs) = some e') :
    ∃ fs', e' = .obj fs' ∧
      (∀ k, (lookupKey k fs).isSome = true → (lookupKey k fs').isSome = true) ∧
      ∀ k, k ∈ ds.map Prod.fst → (lookupKey k fs').isSome = true := by
  induction ds generalizing fs with
  | nil =>
    have h2 : Json.obj fs = e' := by simpa [fillDefaults] using h
    exact ⟨fs, h2.symm, fun _ hk => hk, by simp⟩
  | cons kd rest ih =>
    obtain ⟨k, dv⟩ := kd
    cases hk : lookupKey k fs with
    | some v =>
      have h2 : fillDefaults rest (.obj fs) = some e' := by
        simpa [fillDefaults, pyContains, hasKeyB, hk] using h
      obtain ⟨fs', he, hpres, hkeys⟩ := ih fs h2
      refine ⟨fs', he, hpres, ?_⟩
      intro k0 hk0
      simp only [List.map_cons, List.mem_cons] at hk0
      cases hk0 with
      | inl heq =>
        subst heq
        exact hpres k0 (by simp [hk])
      | inr hmem => exact hkeys k0 hmem
    | none =>
      have h2 : fillDefaults rest (.obj (setKey k dv fs)) = some e' := by
        simpa [fillDefaults, pyContains, hasKeyB, hk, setItem] using h
      obtain ⟨fs', he, hpres, hkeys⟩ := ih (setKey k dv fs) h2
      refine ⟨fs', he, ?_, ?_⟩
      · intro k0 hk0
        exact hpres k0 (lookupKey_setKey_isSome k0 k dv fs hk0)
      · intro k0 hk0
        simp only [List.map_cons, List.mem_cons] at hk0
        cases hk0 with
        | inl heq =>
          subst heq
          exact hpres k0 (by simp [lookupKey_setKey_self])
        | inr hmem => exact hkeys k0 hmem

theorem requiredEyeKeys_eq_map : requiredEyeKeys = defaultEyeFields.map Prod.fst := by
  rfl

theorem normalizeEye_obj_shape (fs : List (String × Json)) (e' : Json)
    (h : normalizeEye (.obj fs) = some e') :
    ∃ fs', e' = .obj fs' ∧ eyeTopComplete (.obj fs') = true := by
  unfold normalizeEye at h
  cases h1 : processDril (.obj fs) with
  | none => simp [h1] at h
  | some e1 =>
    simp only [h1] at h
    obtain ⟨fs1, rfl, _⟩ := processDril_shape fs e1 h1
    cases h2 : processOedeme (.obj fs1) with
    | none => simp [h2] at h
    | some e2 =>
      simp only [h2] at h
      obtain ⟨fs2, rfl, _⟩ := processOedeme_shape fs1 e2 h2
      cases h3 : processField "mle" (.obj fs2) with
      | none => simp [h3] at h
      | some e3 =>
        simp only [h3] at h
        obtain ⟨fs3, rfl, _⟩ := processField_shape "mle" fs2 e3 h3
        cases h4 : processField "ze" (.obj fs3) with
        | none => simp [h4] at h
        | some e4 =>
          simp only [h4] at h
          obtain ⟨fs4, rfl, _⟩ := processField_shape "ze" fs3 e4 h4
          cases h5 : processPoints (.obj fs4) with
          | none => simp [h5] at h
          | some e5 =>
            simp only [h5] at h
            obtain ⟨fs5, rfl, _⟩ := processPoints_shape fs4 e5 h5
            cases h6 : processEpaisseur (.obj fs5) with
            | none => simp [h6] at h
            | some e6 =>
              simp only [h6] at h
              obtain ⟨fs6, rfl, _⟩ := processEpaisseur_shape fs5 e6 h6
              obtain ⟨fs', he, _, hkeys⟩ := fillDefaults_obj defaultEyeFields fs6 e' h
              refine ⟨fs', he, ?_⟩
              simp only [eyeTopComplete, List.all_eq_true]
              intro k hk
              have hk' : k ∈ defaultEyeFields.map Prod.fst := by
                rw [← requiredEyeKeys_eq_map]
                exact hk
              exact hkeys k hk'

theorem normalizeEye_nonobj (e : Json)
    (hget : ∀ k, getItem k e = none)
    (hset : ∀ k v, setItem k v e = none)
    (hmem : ∀ k, ∃ b, pyContains k e = some b) :
    normalizeEye e = none := by
  obtain ⟨b1, hb1⟩ := hmem "dril"
  cases b1 with
  | true => simp [normalizeEye, processDril, hb1, hget "dril"]
  | false =>
    obtain ⟨b2, hb2⟩ := hmem "oedeme"
    cases b2 with
    | true => simp [normalizeEye, processDril, processOedeme, hb1, hb2, hget "oedeme"]
    | false =>
      obtain ⟨b3, hb3⟩ := hmem "mle"
      cases b3 with
      | true =>
        simp [normalizeEye, processDril, processOedeme, processField, hb1, hb2, hb3, hget "mle"]
      | false =>
        obtain ⟨b4, hb4⟩ := hmem "ze"
        cases b4 with
        | true =>
          simp [normalizeEye, processDril, processOedeme, processField,
            hb1, hb2, hb3, hb4, hget "ze"]
        | false =>
          obtain ⟨b5, hb5⟩ := hmem "points_hyperreflectifs"
          cases b5 with
          | true =>
            simp [normalizeEye, processDril, processOedeme, processField, processPoints,
              hb1, hb2, hb3, hb4, hb5, hget "points_hyperreflectifs"]
          | false =>
            obtain ⟨b6, hb6⟩ := hmem "epaisseur_retinienne"
            cases b6 with
            | true =>
              simp [normalizeEye, processDril, processOedeme, processField, processPoints,
                processEpaisseur, hb1, hb2, hb3, hb4, hb5, hb6, hget "epaisseur_retinienne"]
            | false =>
              simp [normalizeEye, processDril, processOedeme, processField, processPoints,
                processEpaisseur, fillDefaults, defaultEyeFields,
                hb1, hb2, hb3, hb4, hb5, hb6, hset]

theorem normalizeEye_shape (e e' : Json) (h : normalizeEye e = some e') :
    ∃ fs', e' = .obj fs' ∧ eyeTopComplete (.obj fs') = true := by
  cases e with
  | obj fs => exact normalizeEye_obj_shape fs e' h
  | str s =>
    rw [normalizeEye_nonobj (.str s) (fun _ => rfl) (fun _ _ => rfl) (fun _ => ⟨_, rfl⟩)] at h
    cases h
  | arr xs =>
    rw [normalizeEye_nonobj (.arr xs) (fun _ => rfl) (fun _ _ => rfl) (fun _ => ⟨_, rfl⟩)] at h
    cases h
  | null => simp [normalizeEye, processDril, pyContains] at h
  | bool b => simp [normalizeEye, processDril, pyContains] at h
  | number n => simp [normalizeEye, processDril, pyContains] at h

theorem processEyeStep_shape (ek : String) (v r' : Json)
    (h : processEyeStep ek v = some r') :
    ∃ fs fs', v = .obj fs ∧ r' = .obj fs' ∧
      (∀ k, k ≠ ek → lookupKey k fs' = lookupKey k fs) ∧
      ∃ e', lookupKey ek fs' = some e' ∧ eyeTopComplete e' = true := by
  cases v with
  | obj fs =>
    cases hl : lookupKey ek fs with
    | none =>
      have h2 : Json.obj (setKey ek defaultEye fs) = r' := by
        simpa [processEyeStep, pyContains, hasKeyB, hl, setItem] using h
      refine ⟨fs, setKey ek defaultEye fs, rfl, h2.symm, ?_, defaultEye, ?_, ?_⟩
      · exact fun k hk => lookupKey_setKey_ne k ek _ fs (Ne.symm hk)
      · exact lookupKey_setKey_self ek defaultEye fs
      · rfl
    | some e =>
      cases hn : normalizeEye e with
      | none => simp [processEyeStep, pyContains, hasKeyB, hl, getItem, hn] at h
      | some e'' =>
        have h2 : Json.obj (setKey ek e'' fs) = r' := by
          simpa [processEyeStep, pyContains, hasKeyB, hl, getItem, hn, setItem] using h
        obtain ⟨fs'', he'', hcomp⟩ := normalizeEye_shape e e'' hn
        refine ⟨fs, setKey ek e'' fs, rfl, h2.symm, ?_, e'', ?_, ?_⟩
        · exact fun k hk => lookupKey_setKey_ne k ek _ fs (Ne.symm hk)
        · exact lookupKey_setKey_self ek e'' fs
        · rw [he'']
          exact hcomp
  | str s =>
    obtain ⟨b, hb⟩ : ∃ b, pyContains ek (.str s) = some b := ⟨_, rfl⟩
    cases b with
    | true => simp [processEyeStep, hb, getItem] at h
    | false => simp [processEyeStep, hb, setItem] at h
  | arr xs =>
    obtain ⟨b, hb⟩ : ∃ b, pyContains ek (.arr xs) = some b := ⟨_, rfl⟩
    cases b with
    | true => simp [processEyeStep, hb, getItem] at h
    | false => simp [processEyeStep, hb, setItem] at h
  | null => simp [processEyeStep, pyContains] at h
  | bool b => simp [processEyeStep, pyContains] at h
  | number n => simp [processEyeStep, pyContains] at h

theorem process_gpt_response_topComplete (v r : Json)
    (h : process_gpt_response v = some r) : topComplete r = true := by
  cases hc : pyContains "error" v with
  | none => simp [process_gpt_response, hc] at h
  | some b =>
    cases b with
    | true =>
      have h2 : generate_default_analysis = r := by
        simpa [process_gpt_response, hc] using h
      rw [← h2]
      rfl
    | false =>
      rw [process_gpt_response, hc] at h
      cases h1 : processEyeStep "left_eye" v with
      | none => simp [h1] at h
      | some v1 =>
        rw [h1] at h
        obtain ⟨fs0, fs1, _, rfl, _, el, hel, helc⟩ := processEyeStep_shape "left_eye" v v1 h1
        obtain ⟨fs1', fs2, heq, rfl, hpres, er, her, herc⟩ :=
          processEyeStep_shape "right_eye" (.obj fs1) r h
        have hfs : fs1' = fs1 := by
          injection heq with h'
          exact h'.symm
        subst hfs
        have hleft : lookupKey "left_eye" fs2 = some el := by
          rw [hpres "left_eye" (by decide)]
          exact hel
        simp [topComplete, hleft, her, helc, herc]

/-! ## Helper lemmas: totality of the normalizer on well-shaped input -/

theorem processDril_ok (fs : List (String × Json)) (hok : statusFieldOK "dril" fs = true) :
    ∃ fs', processDril (.obj fs) = some (.obj fs') ∧
      ∀ k, k ≠ "dril" → lookupKey k fs' = lookupKey k fs := by
  cases hl : lookupKey "dril" fs with
  | none => exact ⟨fs, by simp [processDril, pyContains, hasKeyB, hl], fun _ _ => rfl⟩
  | some d =>
    cases d with
    | obj dfs =>
      cases hs : lookupKey "status" dfs with
      | none => simp [statusFieldOK, hl, hs] at hok
      | some sv =>
        cases sv with
        | str st =>
          refine ⟨setKey "dril"
            (.obj (setKey "status" (.str (normStatus "Présente" "Absente" st)) dfs)) fs, ?_, ?_⟩
          · simp [processDril, pyContains, hasKeyB, hl, getItem, hs, setItem]
          · exact fun k hk => lookupKey_setKey_ne k "dril" _ fs (Ne.symm hk)
        | null => simp [statusFieldOK, hl, hs] at hok
        | bool b => simp [statusFieldOK, hl, hs] at hok
        | number n => simp [statusFieldOK, hl, hs] at hok
        | arr xs => simp [statusFieldOK, hl, hs] at hok
        | obj o => simp [statusFieldOK, hl, hs] at hok
    | null => exact ⟨fs, by simp [processDril, pyContains, hasKeyB, hl, getItem], fun _ _ => rfl⟩
    | bool b => exact ⟨fs, by simp [processDril, pyContains, hasKeyB, hl, getItem], fun _ _ => rfl⟩
    | number n =>
      exact ⟨fs, by simp [processDril, pyContains, hasKeyB, hl, getItem], fun _ _ => rfl⟩
    | str s => exact ⟨fs, by simp [processDril, pyContains, hasKeyB, hl, getItem], fun _ _ => rfl⟩
    | arr xs => exact ⟨fs, by simp [processDril, pyContains, hasKeyB, hl, getItem], fun _ _ => rfl⟩

theorem processOedeme_ok (fs : List (String × Json)) (hok : oedemeOK fs = true) :
    ∃ fs', processOedeme (.obj fs) = some (.obj fs') ∧
      ∀ k, k ≠ "oedeme" → lookupKey k fs' = lookupKey k fs := by
  cases hl : lookupKey "oedeme" fs with
  | none => exact ⟨fs, by simp [processOedeme, pyContains, hasKeyB, hl], fun _ _ => rfl⟩
  | some d =>
    cases d with
    | obj ofs =>
      cases hs : lookupKey "status" ofs with
      | none => simp [oedemeOK, hl, hs] at hok
      | some sv =>
        cases sv with
        | str st =>
          have htl : lookupKey "taille"
              (setKey "status" (.str (normStatus "Présent" "Absent" st)) ofs) =
              lookupKey "taille" ofs :=
            lookupKey_setKey_ne "taille" "status" _ ofs (by decide)
          cases ht : lookupKey "taille" ofs with
          | none =>
            refine ⟨setKey "oedeme"
              (.obj (setKey "status" (.str (normStatus "Présent" "Absent" st)) ofs)) fs, ?_, ?_⟩
            · simp [processOedeme, pyContains, hasKeyB, hl, getItem, hs, htl, ht, setItem]
            · exact fun k hk => lookupKey_setKey_ne k "oedeme" _ fs (Ne.symm hk)
          | some tv =>
            cases tv with
            | str tvs =>
              refine ⟨setKey "oedeme"
                (.obj (setKey "taille" (.str (tailleNorm tvs))
                  (setKey "status" (.str (normStatus "Présent" "Absent" st)) ofs))) fs, ?_, ?_⟩
              · simp [processOedeme, pyContains, hasKeyB, hl, getItem, hs, htl, ht, setItem]
              · exact fun k hk => lookupKey_setKey_ne k "oedeme" _ fs (Ne.symm hk)
            | null => simp [oedemeOK, hl, hs, ht] at hok
            | bool b => simp [oedemeOK, hl, hs, ht] at hok
            | number n => simp [oedemeOK, hl, hs, ht] at hok
            | arr xs => simp [oedemeOK, hl, hs, ht] at hok
            | obj o => simp [oedemeOK, hl, hs, ht] at hok
        | null => simp [oedemeOK, hl, hs] at hok
        | bool b => simp [oedemeOK, hl, hs] at hok
        | number n => simp [oedemeOK, hl, hs] at hok
        | arr xs => simp [oedemeOK, hl, hs] at hok
        | obj o => simp [oedemeOK, hl, hs] at hok
    | null => exact ⟨fs, by simp [processOedeme, pyContains, hasKeyB, hl, getItem], fun _ _ => rfl⟩
    | bool b =>
      exact ⟨fs, by simp [processOedeme, pyContains, hasKeyB, hl, getItem], fun _ _ => rfl⟩
    | number n =>
      exact ⟨fs, by simp [processOedeme, pyContains, hasKeyB, hl, getItem], fun _ _ => rfl⟩
    | str s =>
      exact ⟨fs, by simp [processOedeme, pyContains, hasKeyB, hl, getItem], fun _ _ => rfl⟩
    | arr xs =>
      exact ⟨fs, by simp [processOedeme, pyContains, hasKeyB, hl, getItem], fun _ _ => rfl⟩

theorem processField_ok (f : String) (fs : List (String × Json)) (hok : strOK f fs = true) :
    ∃ fs', processField f (.obj fs) = some (.obj fs') ∧
      ∀ k, k ≠ f → lookupKey k fs' = lookupKey k fs := by
  cases hl : lookupKey f fs with
  | none => exact ⟨fs, by simp [processField, pyContains, hasKeyB, hl], fun _ _ => rfl⟩
  | some d =>
    cases d with
    | str v =>
      refine ⟨setKey f (.str (normMleZe v)) fs, ?_, ?_⟩
      · simp [processField, pyContains, hasKeyB, hl, getItem, setItem]
      · exact fun k hk => lookupKey_setKey_ne k f _ fs (Ne.symm hk)
    | null => simp [strOK, hl] at hok
    | bool b => simp [strOK, hl] at hok
    | number n => simp [strOK, hl] at hok
    | arr xs => simp [strOK, hl] at hok
    | obj o => simp [strOK, hl] at hok

theorem processPoints_ok (fs : List (String × Json))
    (hok : statusFieldOK "points_hyperreflectifs" fs = true) :
    ∃ fs', processPoints (.obj fs) = some (.obj fs') ∧
      ∀ k, k ≠ "points_hyperreflectifs" → lookupKey k fs' = lookupKey k fs := by
  cases hl : lookupKey "points_hyperreflectifs" fs with
  | none => exact ⟨fs, by simp [processPoints, pyContains, hasKeyB, hl], fun _ _ => rfl⟩
  | some d =>
    cases d with
    | obj pfs =>
      cases hs : lookupKey "status" pfs with
      | none => simp [statusFieldOK, hl, hs] at hok
      | some sv =>
        cases sv with
        | str st =>
          refine ⟨setKey "points_hyperreflectifs"
            (.obj (setKey "status" (.str (normStatus "Présents" "Absents" st)) pfs)) fs, ?_, ?_⟩
          · simp [processPoints, pyContains, hasKeyB, hl, getItem, hs, setItem]
          · exact fun k hk => lookupKey_setKey_ne k "points_hyperreflectifs" _ fs (Ne.symm hk)
        | null => simp [statusFieldOK, hl, hs] at hok
        | bool b => simp [statusFieldOK, hl, hs] at hok
        | number n => simp [statusFieldOK, hl, hs] at hok
        | arr xs => simp [statusFieldOK, hl, hs] at hok
        | obj o => simp [statusFieldOK, hl, hs] at hok
    | null => exact ⟨fs, by simp [processPoints, pyContains, hasKeyB, hl, getItem], fun _ _ => rfl⟩
    | bool b =>
      exact ⟨fs, by simp [processPoints, pyContains, hasKeyB, hl, getItem], fun _ _ => rfl⟩
    | number n =>
      exact ⟨fs, by simp [processPoints, pyContains, hasKeyB, hl, getItem], fun _ _ => rfl⟩
    | str s =>
      exact ⟨fs, by simp [processPoints, pyContains, hasKeyB, hl, getItem], fun _ _ => rfl⟩
    | arr xs =>
      exact ⟨fs, by simp [processPoints, pyContains, hasKeyB, hl, getItem], fun _ _ => rfl⟩

theorem processEpaisseur_ok (fs : List (String × Json)) :
    ∃ fs', processEpaisseur (.obj fs) = some (.obj fs') ∧
      ∀ k, k ≠ "epaisseur_retinienne" → lookupKey k fs' = lookupKey k fs := by
  cases hl : lookupKey "epaisseur_retinienne" fs with
  | none => exact ⟨fs, by simp [processEpaisseur, pyContains, hasKeyB, hl], fun _ _ => rfl⟩
  | some d =>
    cases d with
    | str s =>
      refine ⟨setKey "epaisseur_retinienne"
        (.obj [("central", .str s), ("superieur", .str ""), ("inferieur", .str ""),
               ("nasal", .str ""), ("temporal", .str "")]) fs, ?_, ?_⟩
      · simp [processEpaisseur, pyContains, hasKeyB, hl, getItem, setItem]
      · exact fun k hk => lookupKey_setKey_ne k "epaisseur_retinienne" _ fs (Ne.symm hk)
    | null =>
      exact ⟨fs, by simp [processEpaisseur, pyContains, hasKeyB, hl, getItem], fun _ _ => rfl⟩
    | bool b =>
      exact ⟨fs, by simp [processEpaisseur, pyContains, hasKeyB, hl, getItem], fun _ _ => rfl⟩
    | number n =>
      exact ⟨fs, by simp [processEpaisseur, pyContains, hasKeyB, hl, getItem], fun _ _ => rfl⟩
    | arr xs =>
      exact ⟨fs, by simp [processEpaisseur, pyContains, hasKeyB, hl, getItem], fun _ _ => rfl⟩
    | obj o =>
      exact ⟨fs, by simp [processEpaisseur, pyContains, hasKeyB, hl, getItem], fun _ _ => rfl⟩

theorem fillDefaults_ok (ds : List (String × Json)) (fs : List (String × Json)) :
    ∃ fs', fillDefaults ds (.obj fs) = some (.obj fs') := by
  induction ds generalizing fs with
  | nil => exact ⟨fs, rfl⟩
  | cons kd rest ih =>
    obtain ⟨k, dv⟩ := kd
    cases hk : lookupKey k fs with
    | some v =>
      obtain ⟨fs', hfs'⟩ := ih fs
      exact ⟨fs', by simp [fillDefaults, pyContains, hasKeyB, hk, hfs']⟩
    | none =>
      obtain ⟨fs', hfs'⟩ := ih (setKey k dv fs)
      exact ⟨fs', by simp [fillDefaults, pyContains, hasKeyB, hk, setItem, hfs']⟩

theorem statusFieldOK_congr (name : String) (fs fs' : List (String × Json))
    (h : lookupKey name fs' = lookupKey name fs) :
    statusFieldOK name fs' = statusFieldOK name fs := by
  unfold statusFieldOK
  rw [h]

theorem oedemeOK_congr (fs fs' : List (String × Json))
    (h : lookupKey "oedeme" fs' = lookupKey "oedeme" fs) :
    oedemeOK fs' = oedemeOK fs := by
  unfold oedemeOK
  rw [h]

theorem strOK_congr (name : String) (fs fs' : List (String × Json))
    (h : lookupKey name fs' = lookupKey name fs) :
    strOK name fs' = strOK name fs := by
  unfold strOK
  rw [h]

theorem normalizeEye_ok (e : Json) (hok : eyeOK e = true) :
    ∃ e', normalizeEye e = some e' := by
  cases e with
  | obj fs =>
    simp only [eyeOK, Bool.and_eq_true] at hok
    obtain ⟨⟨⟨⟨hd, ho⟩, hm⟩, hz⟩, hp⟩ := hok
    obtain ⟨fs1, h1, p1⟩ := processDril_ok fs hd
    obtain ⟨fs2, h2, p2⟩ := processOedeme_ok fs1
      (by rw [oedemeOK_congr fs fs1 (p1 "oedeme" (by decide))]; exact ho)
    obtain ⟨fs3, h3, p3⟩ := processField_ok "mle" fs2
      (by rw [strOK_congr "mle" fs fs2
        (by rw [p2 "mle" (by decide), p1 "mle" (by decide)])]; exact hm)
    obtain ⟨fs4, h4, p4⟩ := processField_ok "ze" fs3
      (by rw [strOK_congr "ze" fs fs3
        (by rw [p3 "ze" (by decide), p2 "ze" (by decide), p1 "ze" (by decide)])]; exact hz)
    obtain ⟨fs5, h5, p5⟩ := processPoints_ok fs4
      (by rw [statusFieldOK_congr "points_hyperreflectifs" fs fs4
        (by rw [p4 "points_hyperreflectifs" (by decide), p3 "points_hyperreflectifs" (by decide),
                p2 "points_hyperreflectifs" (by decide),
                p1 "points_hyperreflectifs" (by decide)])]; exact hp)
    obtain ⟨fs6, h6, _⟩ := processEpaisseur_ok fs5
    obtain ⟨fs7, h7⟩ := fillDefaults_ok defaultEyeFields fs6
    refine ⟨.obj fs7, ?_⟩
    unfold normalizeEye
    simp [h1, h2, h3, h4, h5, h6, h7]
  | null => simp [eyeOK] at hok
  | bool b => simp [eyeOK] at hok
  | number n => simp [eyeOK] at hok
  | str s => simp [eyeOK] at hok
  | arr xs => simp [eyeOK] at hok

theorem processEyeStep_ok (ek : String) (fs : List (String × Json))
    (hok : ∀ e, lookupKey ek fs = some e → eyeOK e = true) :
    ∃ fs', processEyeStep ek (.obj fs) = some (.obj fs') ∧
      ∀ k, k ≠ ek → lookupKey k fs' = lookupKey k fs := by
  cases hl : lookupKey ek fs with
  | none =>
    refine ⟨setKey ek defaultEye fs, ?_, ?_⟩
    · simp [processEyeStep, pyContains, hasKeyB, hl, setItem]
    · exact fun k hk => lookupKey_setKey_ne k ek _ fs (Ne.symm hk)
  | some e =>
    obtain ⟨e', he'⟩ := normalizeEye_ok e (hok e hl)
    refine ⟨setKey ek e' fs, ?_, ?_⟩
    · simp [processEyeStep, pyContains, hasKeyB, hl, getItem, he', setItem]
    · exact fun k hk => lookupKey_setKey_ne k ek _ fs (Ne.symm hk)

theorem process_gpt_response_total (v : Json) (hok : responseOK v = true) :
    (process_gpt_response v).isSome = true := by
  cases v with
  | obj fs =>
    cases he : hasKeyB "error" fs with
    | true => simp [process_gpt_response, pyContains, he]
    | false =>
      simp only [responseOK, he, Bool.false_or, Bool.and_eq_true] at hok
      obtain ⟨hokl, hokr⟩ := hok
      have hl : ∀ e, lookupKey "left_eye" fs = some e → eyeOK e = true := by
        intro e hle
        rw [hle] at hokl
        exact hokl
      obtain ⟨fs1, h1, p1⟩ := processEyeStep_ok "left_eye" fs hl
      have hr : ∀ e, lookupKey "right_eye" fs1 = some e → eyeOK e = true := by
        intro e hre
        rw [p1 "right_eye" (by decide)] at hre
        rw [hre] at hokr
        exact hokr
      obtain ⟨fs2, h2, _⟩ := processEyeStep_ok "right_eye" fs1 hr
      simp [process_gpt_response, pyContains, he, h1, h2]
  | null => simp [responseOK] at hok
  | bool b => simp [responseOK] at hok
  | number n => simp [responseOK] at hok
  | str s => simp [responseOK] at hok
  | arr xs => simp [responseOK] at hok

/-! ## Helper lemmas: absent eye, comma split -/

theorem processEyeStep_absent (ek : String) (fs : List (String × Json)) (r' : Json)
    (habs : lookupKey ek fs = none)
    (h : processEyeStep ek (.obj fs) = some r') :
    r' = .obj (setKey ek defaultEye fs) := by
  have h2 : Json.obj (setKey ek defaultEye fs) = r' := by
    simpa [processEyeStep, pyContains, hasKeyB, habs, setItem] using h
  exact h2.symm

theorem toList_mk (l : List Char) : (String.mk l).toList = l := rfl

theorem pySplitComma_no_comma (l : List Char) (h : ',' ∉ l) : pySplitComma l = [l] := by
  induction l with
  | nil => rfl
  | cons c t ih =>
    have hc : c ≠ ',' := fun he => h (he ▸ List.mem_cons_self c t)
    have ht : ',' ∉ t := fun hm => h (List.mem_cons_of_mem c hm)
    simp [pySplitComma, hc, ih ht]

theorem pySplitComma_append (a b : List Char) (ha : ',' ∉ a) :
    pySplitComma (a ++ ',' :: b) = a :: pySplitComma b := by
  induction a with
  | nil => simp [pySplitComma]
  | cons c t ih =>
    have hc : c ≠ ',' := fun he => ha (he ▸ List.mem_cons_self c t)
    have ht : ',' ∉ t := fun hm => ha (List.mem_cons_of_mem c hm)
    simp [pySplitComma, hc, ih ht]

/-! ## Claim theorems -/

/-- C1 (counterexample): the claim states that `process_gpt_response` never
raises, explicitly including a `dril` object without a `status` key.  On the
parsed value `{"left_eye": {"dril": {}}}` the line
`eye_data["dril"]["status"].capitalize()` raises `KeyError` (modelled as
`none`), so the claim as stated is false. -/
theorem c1_counterexample :
    process_gpt_response (Json.obj [("left_eye", Json.obj [("dril", Json.obj [])])]) = none :=
  rfl

/-- C1 (amended): `process_gpt_response` is pure and terminates normally on
every parsed response satisfying `responseOK`: an object that declares an
error key, or whose present eye entries are objects in which the
`dril`/`oedeme`/`points_hyperreflectifs` entries, when they are objects,
carry a string `status` (and `oedeme` a string `taille` when that key is
present), and whose `mle`/`ze` entries, when present, are strings.  Outside
this shape (e.g. a missing `status` key or a non-dict eye value) the
function can raise. -/
theorem c1_theorem (v : Json) (hok : responseOK v = true) :
    (process_gpt_response v).isSome = true :=
  process_gpt_response_total v hok

/-- C1 witness: the amended totality theorem applied to a concrete
well-shaped response. -/
theorem c1_witness :
    responseOK (Json.obj [("left_eye",
      Json.obj [("dril", Json.obj [("status", Json.str "present")])])]) = true ∧
    (process_gpt_response (Json.obj [("left_eye",
      Json.obj [("dril", Json.obj [("status", Json.str "present")])])])).isSome = true :=
  ⟨rfl, c1_theorem _ rfl⟩

/-- C2 (counterexample): the claim states the output carries all documented
nested sub-fields, including `dril.extent`.  The default-fill loop is
shallow, so an input whose `dril` object is present but lacks `extent`
yields an output whose `left_eye.dril` still has no `extent` key, while the
pipeline does return a value. -/
theorem c2_counterexample :
    (pipeline "\x7b\"left_eye\": \x7b\"dril\": \x7b\"status\": \"Absente\"\x7d\x7d\x7d").isSome
      = true ∧
    Option.bind (Option.bind (Option.bind
        (pipeline "\x7b\"left_eye\": \x7b\"dril\": \x7b\"status\": \"Absente\"\x7d\x7d\x7d")
        (getItem "left_eye")) (getItem "dril")) (getItem "extent") = none :=
  ⟨rfl, rfl⟩

/-- C2 (amended): for any input text, whenever the response pipeline returns
normally, the result is an object containing both eye keys whose values are
objects carrying every top-level field of the default per-eye schema.
Nested sub-fields are only guaranteed when the parent key was absent and
filled wholesale; a present-but-partial nested object is left incomplete,
and on some inputs the normalizer raises instead of returning (see C1). -/
theorem c2_theorem (t : List Char) (r : Json) (h : pipelineL t = some r) :
    topComplete r = true :=
  process_gpt_response_topComplete _ r h

/-- C2 witness: the empty input parses as an error and yields the default
analysis, which is top-level complete. -/
theorem c2_witness :
    pipelineL [] = some generate_default_analysis ∧
    topComplete generate_default_analysis = true :=
  ⟨rfl, c2_theorem [] generate_default_analysis rfl⟩

/-- C3: a parsed response object declaring an `error` key makes the
normalizer return the full default two-eye analysis immediately, with no
merge of any other data present in the object. -/
theorem c3_theorem (fs : List (String × Json)) (h : hasKeyB "error" fs = true) :
    process_gpt_response (.obj fs) = some generate_default_analysis := by
  simp [process_gpt_response, pyContains, h]

/-- C3 witness: `{"error": "timeout", "left_eye": "junk"}` yields exactly the
default structure. -/
theorem c3_witness :
    process_gpt_response (.obj [("error", Json.str "timeout"), ("left_eye", Json.str "junk")]) =
      some generate_default_analysis :=
  c3_theorem [("error", Json.str "timeout"), ("left_eye", Json.str "junk")] rfl

/-- C4: when an eye key is absent from a parsed response object, the
normalized result (when the normalizer returns) carries the entire default
per-eye sub-record for that eye, never a partial merge; symmetrically for
either eye. -/
theorem c4_theorem (fs : List (String × Json)) (r : Json)
    (h : process_gpt_response (.obj fs) = some r) :
    (lookupKey "right_eye" fs = none → getItem "right_eye" r = some defaultEye) ∧
    (lookupKey "left_eye" fs = none → getItem "left_eye" r = some defaultEye) := by
  cases he : hasKeyB "error" fs with
  | true =>
    have h2 : generate_default_analysis = r := by
      simpa [process_gpt_response, pyContains, he] using h
    rw [← h2]
    exact ⟨fun _ => rfl, fun _ => rfl⟩
  | false =>
    rw [process_gpt_response] at h
    simp only [pyContains, he] at h
    cases h1 : processEyeStep "left_eye" (.obj fs) with
    | none => simp [h1] at h
    | some v1 =>
      simp only [h1] at h
      constructor
      · intro habs
        obtain ⟨fs0, fs1, heq0, rfl, hpres1, _⟩ := processEyeStep_shape "left_eye" (.obj fs) v1 h1
        have hfs0 : fs0 = fs := by
          injection heq0 with h'
          exact h'.symm
        subst hfs0
        have habs1 : lookupKey "right_eye" fs1 = none := by
          rw [hpres1 "right_eye" (by decide)]
          exact habs
        have hr := processEyeStep_absent "right_eye" fs1 r habs1 h
        rw [hr]
        simp [getItem, lookupKey_setKey_self]
      · intro habs
        have hv1 := processEyeStep_absent "left_eye" fs v1 habs h1
        subst hv1
        obtain ⟨fs1', fs2, heq1, rfl, hpres2, _⟩ :=
          processEyeStep_shape "right_eye" (.obj (setKey "left_eye" defaultEye fs)) r h
        have hfs1 : fs1' = setKey "left_eye" defaultEye fs := by
          injection heq1 with h'
          exact h'.symm
        subst hfs1
        have : lookupKey "left_eye" fs2 = some defaultEye := by
          rw [hpres2 "left_eye" (by decide)]
          exact lookupKey_setKey_self "left_eye" defaultEye fs
        simp [getItem, this]

/-- C4 witness: an input with only `left_eye` normalizes with a `right_eye`
equal to the full default sub-record (here the input's empty `left_eye`
object is also filled to exactly the default, so the result is the default
analysis). -/
theorem c4_witness :
    getItem "right_eye" generate_default_analysis = some defaultEye :=
  (c4_theorem [("left_eye", Json.obj [])] generate_default_analysis rfl).1 rfl

set_option maxRecDepth 100000 in
/-- C5 (counterexample): the claim quantifies over every valid
AnalysisResult JSON text.  A schema-complete AnalysisResult whose left
`dril.status` string contains generic fence markers parses (and even
normalizes) as valid JSON, yet the pipeline diverges between the verbatim
text (the generic-fence branch extracts the characters between the
backticks, which parse as the number `1`, on which the normalizer raises)
and the same text wrapped in JSON-tagged fences (the extracted fragment is
truncated, fails to parse, and yields the default analysis). -/
theorem c5_counterexample :
    (parseJson backtickStatusResponse.toList).isSome = true ∧
    ((parseJson backtickStatusResponse.toList).bind process_gpt_response).isSome = true ∧
    pipeline backtickStatusResponse = none ∧
    pipelineL (wrapJsonFence backtickStatusResponse.toList) = some generate_default_analysis :=
  ⟨rfl, rfl, rfl, rfl⟩

/-- C5 (amended): for every response text that carries no surrounding
whitespace and does not itself contain the fence marker, running the
pipeline on the text verbatim, wrapped in JSON-tagged fences, or wrapped in
generic fences yields the same normalized output, and the JSON-tagged
branch extracts exactly the wrapped content (taking precedence over the
generic branch). -/
theorem c5_theorem (t : List Char) (h1 : pyStrip t = t)
    (h2 : splitAfter fence3 t = none) :
    pipelineL (wrapJsonFence t) = pipelineL t ∧
    pipelineL (wrapFence t) = pipelineL t ∧
    extractFenced (wrapJsonFence t) = t := by
  have e1 : extractFenced (wrapJsonFence t) = t := by
    rw [extractFenced_wrapJson t h2, h1]
  have e2 : extractFenced (wrapFence t) = t := by
    rw [extractFenced_wrapFence t h2, h1]
  have ev : extractFenced t = t := extractFenced_verbatim t h2
  refine ⟨?_, ?_, e1⟩
  · unfold pipelineL
    rw [pyStrip_wrapJson_noop, e1, h1, ev]
  · unfold pipelineL
    rw [pyStrip_wrapFence_noop, e2, h1, ev]

/-- C5 witness: the fence-idempotence theorem applied to the concrete JSON
text of an empty object. -/
theorem c5_witness :
    pipelineL (wrapJsonFence ("\x7b\x7d".toList)) = pipelineL ("\x7b\x7d".toList) ∧
    pipelineL (wrapFence ("\x7b\x7d".toList)) = pipelineL ("\x7b\x7d".toList) ∧
    extractFenced (wrapJsonFence ("\x7b\x7d".toList)) = "\x7b\x7d".toList :=
  c5_theorem ("\x7b\x7d".toList) rfl rfl

/-- C6: the status canonicalization used for `dril.status` (feminine
spellings) and `points_hyperreflectifs.status` (plural spellings)
capitalizes the value, keeps it when it is one of the two accepted values
("Présente" is accepted directly, its lower-casing does not even contain
the ASCII substring "present"), and otherwise re-derives it from the
case-insensitive substring test for "present": affirmative match gives the
affirmative spelling, anything else the negative spelling.  Concretely
"present", "PRESENT" and "Présente" all normalize to "Présente". -/
theorem c6_theorem :
    normStatus "Présente" "Absente" "present" = "Présente" ∧
    normStatus "Présente" "Absente" "PRESENT" = "Présente" ∧
    normStatus "Présente" "Absente" "Présente" = "Présente" ∧
    (∀ s, pyCapitalize s ≠ "Présente" → pyCapitalize s ≠ "Absente" →
      normStatus "Présente" "Absente" s =
        (if pyInStr "present" (pyLower (pyCapitalize s)) then "Présente" else "Absente")) ∧
    (∀ s, pyCapitalize s ≠ "Présents" → pyCapitalize s ≠ "Absents" →
      normStatus "Présents" "Absents" s =
        (if pyInStr "present" (pyLower (pyCapitalize s)) then "Présents" else "Absents")) := by
  refine ⟨rfl, rfl, rfl, ?_, ?_⟩
  · intro s h1 h2
    simp [normStatus, h1, h2]
  · intro s h1 h2
    simp [normStatus, h1, h2]

/-- C6 witness: the general re-derivation clauses applied to a value whose
capitalization is not accepted and does not contain the affirmative
substring. -/
theorem c6_witness :
    normStatus "Présente" "Absente" "maybe" =
      (if pyInStr "present" (pyLower (pyCapitalize "maybe")) then "Présente" else "Absente") ∧
    normStatus "Présents" "Absents" "maybe" =
      (if pyInStr "present" (pyLower (pyCapitalize "maybe")) then "Présents" else "Absents") :=
  ⟨c6_theorem.2.2.2.1 "maybe" (by decide) (by decide),
   c6_theorem.2.2.2.2 "maybe" (by decide) (by decide)⟩

/-- C7: `oedeme.taille` is lower-cased and looked up in the synonym table:
"small", "petit" and "<100" all map to "petite", while a token whose
lower-casing is not in the table (e.g. "huge") passes through unchanged
rather than being forced into the closed vocabulary. -/
theorem c7_theorem :
    tailleNorm "small" = "petite" ∧
    tailleNorm "petit" = "petite" ∧
    tailleNorm "<100" = "petite" ∧
    tailleNorm "huge" = "huge" ∧
    (∀ s, strLookup (pyLower s) taille_mapping = none → tailleNorm s = pyLower s) := by
  refine ⟨rfl, rfl, rfl, rfl, ?_⟩
  intro s h
  simp [tailleNorm, h]

/-- C7 witness: the pass-through clause applied to the unrecognized token
"HUGE". -/
theorem c7_witness : tailleNorm "HUGE" = pyLower "HUGE" :=
  c7_theorem.2.2.2.2 "HUGE" rfl

/-- C8: the `mle`/`ze` canonicalization is a case-insensitive substring test
for the roots "continu", "partiel", "complet", in that priority order with
first match winning: any value containing "continu" maps to "Continue" even
when it also contains the other roots, and a value matching none of the
roots is left unchanged. -/
theorem c8_theorem :
    (∀ s, pyInStr "continu" (pyLower s) = true → normMleZe s = "Continue") ∧
    (∀ s, pyInStr "continu" (pyLower s) = false → pyInStr "partiel" (pyLower s) = true →
      normMleZe s = "Partiellement interrompue") ∧
    (∀ s, pyInStr "continu" (pyLower s) = false → pyInStr "partiel" (pyLower s) = false →
      pyInStr "complet" (pyLower s) = true → normMleZe s = "Complètement interrompue") ∧
    (∀ s, pyInStr "continu" (pyLower s) = false → pyInStr "partiel" (pyLower s) = false →
      pyInStr "complet" (pyLower s) = false → normMleZe s = s) := by
  refine ⟨?_, ?_, ?_, ?_⟩
  · intro s h
    simp only [pyInStr] at h
    simp only [normMleZe, h]
    simp
  · intro s h1 h2
    simp only [pyInStr] at h1 h2
    simp only [normMleZe, h1, h2]
    simp
  · intro s h1 h2 h3
    simp only [pyInStr] at h1 h2 h3
    simp only [normMleZe, h1, h2, h3]
    simp
  · intro s h1 h2 h3
    simp only [pyInStr] at h1 h2 h3
    simp only [normMleZe, h1, h2, h3]
    simp

/-- C8 witness: a value containing all three roots maps to "Continue"
(priority of the first root), and a value with none of the roots is
unchanged. -/
theorem c8_witness :
    normMleZe "Continu partiel complet" = "Continue" ∧
    normMleZe "intacte" = "intacte" :=
  ⟨c8_theorem.1 "Continu partiel complet" rfl,
   c8_theorem.2.2.2 "intacte" rfl rfl rfl⟩

/-- C9 (counterexample): the claim says the comma split lets the first
occurrence win.  `contents.split(',')` with two commas yields three parts,
and the two-name tuple unpacking raises `ValueError` (modelled as `none`)
instead of returning everything after the first comma. -/
theorem c9_counterexample :
    encode_image_contents "data:image/png;base64,AA,BB" = none :=
  rfl

/-- C9 (amended): for a data-URL whose mime part and payload are comma-free
(so the input has exactly one comma separator), `encode_image_contents`
returns the payload unchanged, with no re-encoding; with more than one
comma the tuple unpacking of the split raises instead of splitting at the
first occurrence. -/
theorem c9_theorem (a b : List Char) (ha : ',' ∉ a) (hb : ',' ∉ b) :
    encode_image_contents (String.mk (a ++ ',' :: b)) = some (String.mk b) := by
  simp [encode_image_contents, toList_mk, pySplitComma_append a b ha, pySplitComma_no_comma b hb]

/-- C9 witness: a concrete single-comma data-URL. -/
theorem c9_witness :
    encode_image_contents (String.mk ("data:image/png;base64".toList ++ ',' :: "iVBOR".toList)) =
      some (String.mk "iVBOR".toList) :=
  c9_theorem "data:image/png;base64".toList "iVBOR".toList (by decide) (by decide)

/-- C10: when the save handler runs on a click with a missing required field
(absent or empty nom or prénom, absent or zero âge), it returns the
user-visible validation message with the alert open, leaves the patients
store unchanged, and never invokes `add_patient`. -/
theorem c10_theorem (n_clicks : Nat) (nom prenom : Option String) (age : Option Int)
    (sexe ivt_recu type_ivt : Option String) (nb_injections : Option Int)
    (molecule : Option String) (doctor : String) (patients : List PatientData)
    (hn : n_clicks ≠ 0)
    (hmiss : truthyS nom = false ∨ truthyS prenom = false ∨ truthyI age = false) :
    save_new_patient n_clicks nom prenom age sexe ivt_recu type_ivt nb_injections
        molecule doctor patients =
      ⟨"Veuillez remplir tous les champs obligatoires (nom, prénom, âge).",
       true, "danger", patients, false⟩ := by
  rcases hmiss with h | h | h <;> simp [save_new_patient, hn, h]

/-- C10 witness: a click with an absent nom leaves a singleton store
unchanged and reports the validation message. -/
theorem c10_witness :
    save_new_patient 1 none (some "Ahmed") (some 63) (some "Homme") (some "Non") none none
        none "Elamri_Ayoub" [] =
      ⟨"Veuillez remplir tous les champs obligatoires (nom, prénom, âge).",
       true, "danger", [], false⟩ :=
  c10_theorem 1 none (some "Ahmed") (some 63) (some "Homme") (some "Non") none none
    none "Elamri_Ayoub" [] (by decide) (Or.inl rfl)
